import Mathlib

/-!
Verification development for the FeatureGenAI repository's
feature-content/analysis consistency reconciliation core.

Strings are modelled as `List Char`.  JavaScript values flowing through the
reconciliation code (parsed JSON, analysis objects) are modelled by the
inductive type `JVal`; JavaScript numbers are modelled by `JNum`
(a rational value, NaN, or a signed infinity).

Embedded source functions (from `src/server/routes.ts` and the OpenAI
adapter):
* `parseScenarioTitles`   - the scenario-heading extractor
* `analysisTitlesFromJson` - titles stored in a serialized analysis
* `normalizeAnalysisToText` - analysis normalization (pad/truncate/retitle)
* `needsReanalysis`       - the reanalysis decision
* `analyzeFeatureComplexity` - response shaping/clamping of the scoring call
* `patchFeature`          - the PATCH /api/features/:id reconciliation step
-/

namespace FeatureGenAI

/-- Character list of a string literal. -/
def strL (s : String) : List Char := s.data

/-- Whitespace per the JavaScript regex class `\s` (ASCII whitespace plus the
Unicode space characters recognized by JS). -/
def isWs (c : Char) : Bool :=
  c == ' ' || c == '\t' || c == '\n' || c == '\r' || c == '\x0b' || c == '\x0c' ||
  c == '\u00A0' || c == '\u1680' || (decide ('\u2000' ≤ c) && decide (c ≤ '\u200A')) ||
  c == '\u2028' || c == '\u2029' || c == '\u202F' || c == '\u205F' ||
  c == '\u3000' || c == '\uFEFF'

/-- Line terminators, which the JavaScript `.` pattern never matches. -/
def isLineTerm (c : Char) : Bool := c == '\n' || c == '\r'

/-- Drop leading JS whitespace (the effect of a leading greedy `\s*`,
anchored before a non-whitespace keyword). -/
def dropWs (l : List Char) : List Char := l.dropWhile isWs

/-- Trim JS whitespace from both ends (the JS `String.prototype.trim`,
also the net effect of the regex pieces around the title capture group). -/
def trimBoth (l : List Char) : List Char :=
  ((l.dropWhile isWs).reverse.dropWhile isWs).reverse

/-- Split on `\r?\n`, as `text.split(/\r?\n/)` does: `\n` and `\r\n` both end a
line, a lone `\r` stays inside its line. -/
def splitLines : List Char → List (List Char)
  | [] => [[]]
  | '\n' :: rest => [] :: splitLines rest
  | '\r' :: '\n' :: rest => [] :: splitLines rest
  | c :: rest =>
    match splitLines rest with
    | [] => [[c]]
    | l :: ls => (c :: l) :: ls

/-- Strip a literal from the front of a list: `dropLit p l = some r` exactly
when `l = p ++ r`. -/
def dropLit : List Char → List Char → Option (List Char)
  | [], l => some l
  | _ :: _, [] => none
  | p :: ps, c :: cs => if c = p then dropLit ps cs else none

/-- Match the keyword part `Scenario(?: Outline)?:` of the heading regex at the
start of the (whitespace-stripped) line, returning what follows the colon. -/
def afterKw (l : List Char) : Option (List Char) :=
  match dropLit (strL "Scenario") l with
  | none => none
  | some r =>
    match dropLit (strL " Outline:") r with
    | some r2 => some r2
    | none => dropLit (strL ":") r

/-- Title captured by `/^\s*Scenario(?: Outline)?:\s*(.+)\s*$/` on one line,
followed by the source's `.trim()`; `none` when the regex does not match (and
the guard `if (m && m[1])` cannot reject a successful match, since the capture
group `(.+)` is always nonempty).  After the keyword, the regex matches iff the
remainder has a character matchable by `.` outside the whitespace padding:
if the trimmed middle is nonempty it must be free of line terminators, and if
it is empty the remainder must still contain some non-terminator (whitespace)
character; the pushed title is the trimmed middle in both cases. -/
def lineTitle (line : List Char) : Option (List Char) :=
  match afterKw (dropWs line) with
  | none => none
  | some rest =>
    let mid := trimBoth rest
    if mid.isEmpty then
      if rest.any (fun c => !(isLineTerm c)) then some [] else none
    else
      if mid.any isLineTerm then none else some mid

/-- Embedding of `parseScenarioTitles` (src/server/routes.ts:442-451): split
the text into lines and collect the captured titles in order.  The argument is
`none` for the absent/null text, and the source's falsy guard `if (!text)` also
returns `[]` for the empty string. -/
def parseScenarioTitles (text : Option (List Char)) : List (List Char) :=
  match text with
  | none => []
  | some t => if t.isEmpty then [] else (splitLines t).filterMap lineTitle

/-! ## JavaScript/JSON value model -/

/-- JavaScript numbers as they matter to this core: NaN, the two infinities,
or an exact value (doubles are modelled by rationals; none of the claims
depends on rounding). -/
inductive JNum where
  | nan : JNum
  | inf : JNum
  | ninf : JNum
  | val : Rat → JNum
deriving DecidableEq

/-- JSON-shaped JavaScript values.  Objects are ordered field lists (JS
objects have unique keys; `JSON.parse` resolves duplicate keys last-wins, and
every object this development builds has unique keys). -/
inductive JVal where
  | jnull : JVal
  | jbool : Bool → JVal
  | jnum : JNum → JVal
  | jstr : List Char → JVal
  | jarr : List JVal → JVal
  | jobj : List (List Char × JVal) → JVal

/-- Value of the last field with the given key (JS object semantics for a
possibly-duplicated association list). -/
def getVal : List (List Char × JVal) → List Char → Option JVal
  | [], _ => none
  | p :: fs, k =>
    match getVal fs k with
    | some v => some v
    | none => if p.1 = k then some p.2 else none

/-- Property read `v.k` on a non-null value, and `v?.k`: `none` both for a
missing field and for a non-object receiver (whose named properties are
undefined here; the keys this core reads are never `length` or an index). -/
def jGet (v : JVal) (k : List Char) : Option JVal :=
  match v with
  | .jobj fs => getVal fs k
  | _ => none

/-- Assignment of a key in an object literal: an existing key keeps its
position and gets the new value, a new key is appended (JS property order). -/
def setKey (fs : List (List Char × JVal)) (k : List Char) (v : JVal) :
    List (List Char × JVal) :=
  if fs.any (fun p => decide (p.1 = k)) then
    fs.map (fun p => if p.1 = k then (k, v) else p)
  else fs ++ [(k, v)]

/-- Decimal key for spreading the indexed own properties of strings/arrays. -/
def idxKey (i : Nat) : List Char := (Nat.repr i).data

/-- Enumerable own properties a value contributes under object spread
`{...v}`: objects their fields, strings their characters and arrays their
elements under decimal index keys, primitives nothing. -/
def jFieldsRaw : JVal → List (List Char × JVal)
  | .jobj fs => fs
  | .jstr s => s.mapIdx (fun i c => (idxKey i, JVal.jstr [c]))
  | .jarr xs => xs.mapIdx (fun i x => (idxKey i, x))
  | _ => []

/-- Fields produced by `{...v}`: each contributed property assigned in order
(so duplicates resolve last-wins while keeping first-occurrence order). -/
def jSpreadFields (v : JVal) : List (List Char × JVal) :=
  (jFieldsRaw v).foldl (fun acc p => setKey acc p.1 p.2) []

/-- Nullish coalescing on a property read: `v.k` unless it is null/undefined. -/
def jCoalesceField (s : JVal) (k : List Char) : Option JVal :=
  match jGet s k with
  | some .jnull => none
  | some v => some v
  | none => none

mutual

/-- Effect of `JSON.parse(JSON.stringify v)` on a value built by this core:
NaN and the infinities serialize as `null`, everything else round-trips. -/
def jsonRoundTrip : JVal → JVal
  | .jnull => .jnull
  | .jbool b => .jbool b
  | .jnum (.val q) => .jnum (.val q)
  | .jnum _ => .jnull
  | .jstr s => .jstr s
  | .jarr xs => .jarr (jsonRoundTripList xs)
  | .jobj fs => .jobj (jsonRoundTripFields fs)

/-- Round-trip, mapped over an array's elements. -/
def jsonRoundTripList : List JVal → List JVal
  | [] => []
  | x :: xs => jsonRoundTrip x :: jsonRoundTripList xs

/-- Round-trip, mapped over an object's field values. -/
def jsonRoundTripFields :
    List (List Char × JVal) → List (List Char × JVal)
  | [] => []
  | p :: fs => (p.1, jsonRoundTrip p.2) :: jsonRoundTripFields fs

end

/-! ## Stored-analysis titles and the reanalysis decision -/

/-- Title of one stored scenario entry (the mapper inside
`analysisTitlesFromJson`): the `title` field when it is a string, else the
`name` field when it is a string, else the empty string. -/
def entryTitle (s : JVal) : List Char :=
  match jGet s (strL "title") with
  | some (.jstr t) => t
  | _ =>
    match jGet s (strL "name") with
    | some (.jstr t) => t
    | _ => []

/-- Embedding of `analysisTitlesFromJson` (src/server/routes.ts:453-468).
The stored `analysisJson` string is modelled by its parse outcome:
`none` for an absent/null/empty (falsy) string, `some none` for a string on
which `JSON.parse` throws, `some (some v)` for a string parsing to `v`. -/
def analysisTitlesFromJson (analysisJson : Option (Option JVal)) :
    List (List Char) :=
  match analysisJson with
  | none => []
  | some none => []
  | some (some parsed) =>
    match jGet parsed (strL "scenarios") with
    | some (.jarr xs) => xs.map entryTitle
    | _ => []

/-- Embedding of `needsReanalysis` (src/server/routes.ts:514-532). -/
def needsReanalysis (featureText : Option (List Char))
    (existingAnalysisJson : Option (Option JVal))
    (contentEdited scenarioCountHintChanged : Bool) : Bool :=
  if contentEdited || scenarioCountHintChanged then true
  else
    let textTitles := parseScenarioTitles featureText
    let analysisTitles := analysisTitlesFromJson existingAnalysisJson
    if textTitles.length ≠ analysisTitles.length then true
    else (textTitles.zip analysisTitles).any (fun p => decide (p.1 ≠ p.2))

/-! ## Normalization -/

/-- The JavaScript `arr.map((x, i) => f i x)`, carrying the element index. -/
def mapWithIndex (f : Nat → JVal → JVal) : Nat → List JVal → List JVal
  | _, [] => []
  | i, x :: xs => f i x :: mapWithIndex f (i + 1) xs

/-- Scenario array of an analysis value:
`Array.isArray(analysis?.scenarios) ? analysis.scenarios : []`. -/
def scenariosOf (v : JVal) : List JVal :=
  match jGet v (strL "scenarios") with
  | some (.jarr xs) => xs
  | _ => []

/-- Placeholder entry appended for a missing scenario
(src/server/routes.ts:490-499): the heading at that index when present, else
a synthesized `Scenario n` title, with pending markers. -/
def placeholderEntry (titles : List (List Char)) (idx : Nat) : JVal :=
  let title := titles.getD idx (strL "Scenario " ++ (Nat.repr (idx + 1)).data)
  .jobj [(strL "title", .jstr title), (strL "name", .jstr title),
         (strL "complexity", .jstr (strL "Unknown")),
         (strL "details", .jstr (strL "Pending analysis"))]

/-- The heading chosen for entry `i`
(src/server/routes.ts:506): `titles[i] ?? s?.title ?? s?.name ?? "Scenario " + (i+1)`
(text headings are strings and never nullish, so `??` only falls through past
the end of the heading list). -/
def headingOf (titles : List (List Char)) (i : Nat) (s : JVal) : JVal :=
  match titles[i]? with
  | some t => .jstr t
  | none =>
    match jCoalesceField s (strL "title") with
    | some v => v
    | none =>
      match jCoalesceField s (strL "name") with
      | some v => v
      | none => .jstr (strL "Scenario " ++ (Nat.repr (i + 1)).data)

/-- The per-entry retitling map (src/server/routes.ts:505-508): the object
literal `{...s, title: heading, name: heading}`. -/
def forceHeading (titles : List (List Char)) (i : Nat) (s : JVal) : JVal :=
  .jobj (setKey (setKey (jSpreadFields s) (strL "title") (headingOf titles i s))
    (strL "name") (headingOf titles i s))

/-- The normalization target length
`Math.max(titles.length, typeof desiredLenHint === "number" ? desiredLenHint : 0)`;
the callers pass the schema-validated integer `scenarioCount` as the hint, so
it is modelled as an integer, a negative one clamping to zero under `max`
with the heading count. -/
def desiredLenOf (titles : List (List Char)) (hint : Option Int) : Nat :=
  max titles.length (hint.getD 0).toNat

/-- The padding/truncation step of normalization
(src/server/routes.ts:489-503): append placeholders up to `desiredLen`, or
keep only the first `desiredLen` entries. -/
def padTruncate (titles : List (List Char)) (desiredLen : Nat)
    (scenarios0 : List JVal) : List JVal :=
  if scenarios0.length < desiredLen then
    scenarios0 ++ (List.range (desiredLen - scenarios0.length)).map
      (fun i => placeholderEntry titles (scenarios0.length + i))
  else if desiredLen < scenarios0.length then
    scenarios0.take desiredLen
  else scenarios0

/-- Embedding of `normalizeAnalysisToText` (src/server/routes.ts:476-511):
extract the headings, pad or truncate the scenario array to the desired
length, retitle every entry to its heading, and return the analysis with the
scenario array replaced. -/
def normalizeAnalysisToText (analysis : JVal) (featureText : List Char)
    (desiredLenHint : Option Int) : JVal :=
  let titles := parseScenarioTitles (some featureText)
  let scenarios2 := mapWithIndex (forceHeading titles) 0
    (padTruncate titles (desiredLenOf titles desiredLenHint)
      (scenariosOf analysis))
  .jobj (setKey (jSpreadFields analysis) (strL "scenarios") (.jarr scenarios2))

/-! ## Scoring-collaborator adapter (`analyzeFeatureComplexity`) -/

/-- JavaScript truthiness of a JSON-shaped value. -/
def jsTruthy : JVal → Bool
  | .jnull => false
  | .jbool b => b
  | .jnum .nan => false
  | .jnum (.val q) => decide (q ≠ 0)
  | .jnum _ => true
  | .jstr s => !s.isEmpty
  | .jarr _ => true
  | .jobj _ => true

/-- Value of one character as a digit in the given base, if it is one. -/
def digitVal (base : Nat) (c : Char) : Option Nat :=
  let v : Nat :=
    if '0' ≤ c ∧ c ≤ '9' then c.toNat - '0'.toNat
    else if 'a' ≤ c ∧ c ≤ 'z' then c.toNat - 'a'.toNat + 10
    else if 'A' ≤ c ∧ c ≤ 'Z' then c.toNat - 'A'.toNat + 10
    else base
  if v < base then some v else none

/-- Value of a nonempty digit string in the given base. -/
def digitsVal (base : Nat) (ds : List Char) : Option Nat :=
  if ds.isEmpty then none
  else ds.foldl (fun acc c =>
    match acc, digitVal base c with
    | some a, some v => some (a * base + v)
    | _, _ => none) (some 0)

/-- Ten to an integer power, as a rational. -/
def pow10 : Int → Rat
  | .ofNat n => (10 : Rat) ^ n
  | .negSucc n => 1 / (10 : Rat) ^ (n + 1)

/-- JS `StrUnsignedDecimalLiteral` without the `Infinity` case:
digits, an optional decimal point and fraction, an optional exponent. -/
def parseDec (t : List Char) : Option Rat :=
  let mant := t.takeWhile (fun c => !(c == 'e' || c == 'E'))
  let erest := t.dropWhile (fun c => !(c == 'e' || c == 'E'))
  let expOpt : Option Int :=
    match erest with
    | [] => some 0
    | _ :: '+' :: ds => (digitsVal 10 ds).map (fun n => (n : Int))
    | _ :: '-' :: ds => (digitsVal 10 ds).map (fun n => -(n : Int))
    | _ :: ds => (digitsVal 10 ds).map (fun n => (n : Int))
  match expOpt with
  | none => none
  | some e =>
    let ip := mant.takeWhile (fun c => !(c == '.'))
    let frest := mant.dropWhile (fun c => !(c == '.'))
    let mval : Option Rat :=
      match frest with
      | [] => (digitsVal 10 ip).map (fun n => (n : Rat))
      | _ :: fp =>
        if ip.isEmpty then
          (digitsVal 10 fp).map (fun n => (n : Rat) / (10 : Rat) ^ fp.length)
        else
          match digitsVal 10 ip with
          | none => none
          | some i =>
            if fp.isEmpty then some ((i : Nat) : Rat)
            else (digitsVal 10 fp).map
              (fun n => ((i : Nat) : Rat) + (n : Rat) / (10 : Rat) ^ fp.length)
    mval.map (fun m => m * pow10 e)

/-- Signed decimal or `Infinity` branch of string-to-number. -/
def signedDec (neg : Bool) (t : List Char) : JNum :=
  if t = strL "Infinity" then (if neg then .ninf else .inf)
  else
    match parseDec t with
    | some q => .val (if neg then -q else q)
    | none => .nan

/-- JS `Number(string)`: trimmed empty is 0, radix prefixes, otherwise a
signed decimal literal or `Infinity`; anything else is NaN. -/
def strToNum (s : List Char) : JNum :=
  let t := trimBoth s
  if t.isEmpty then .val 0
  else
    match t with
    | '0' :: 'x' :: ds => match digitsVal 16 ds with | some n => .val n | none => .nan
    | '0' :: 'X' :: ds => match digitsVal 16 ds with | some n => .val n | none => .nan
    | '0' :: 'o' :: ds => match digitsVal 8 ds with | some n => .val n | none => .nan
    | '0' :: 'O' :: ds => match digitsVal 8 ds with | some n => .val n | none => .nan
    | '0' :: 'b' :: ds => match digitsVal 2 ds with | some n => .val n | none => .nan
    | '0' :: 'B' :: ds => match digitsVal 2 ds with | some n => .val n | none => .nan
    | '+' :: rest => signedDec false rest
    | '-' :: rest => signedDec true rest
    | _ => signedDec false t

/-- JS `ToNumber` on JSON-shaped values.  Arrays coerce through their joined
string form in JS; that path is approximated as NaN here (no theorem below
evaluates a complexity score that is an array). -/
def toNumberJ : JVal → JNum
  | .jnull => .val 0
  | .jbool b => .val (if b then 1 else 0)
  | .jnum n => n
  | .jstr s => strToNum s
  | .jarr _ => .nan
  | .jobj _ => .nan

/-- JS `Math.max` on two numbers: NaN-propagating, otherwise the larger. -/
def jsMax (a b : JNum) : JNum :=
  match a, b with
  | .nan, _ => .nan
  | _, .nan => .nan
  | .inf, _ => .inf
  | _, .inf => .inf
  | .ninf, x => x
  | x, .ninf => x
  | .val x, .val y => .val (if x ≤ y then y else x)

/-- JS `Math.min` on two numbers: NaN-propagating, otherwise the smaller. -/
def jsMin (a b : JNum) : JNum :=
  match a, b with
  | .nan, _ => .nan
  | _, .nan => .nan
  | .ninf, _ => .ninf
  | _, .ninf => .ninf
  | .inf, x => x
  | x, .inf => x
  | .val x, .val y => .val (if x ≤ y then x else y)

/-- The adapter's score computation
`Math.min(10, Math.max(1, score || 1))` applied to a property read result:
a missing or falsy score is replaced by 1 first, a truthy one is coerced to a
number by `Math.max`. -/
def codeComplexity (v : Option JVal) : JNum :=
  let base : JNum :=
    match v with
    | none => .val 1
    | some w => if jsTruthy w then toNumberJ w else .val 1
  jsMin (.val 10) (jsMax (.val 1) base)

/-- Null test: a property read `v.k` written without optional chaining
throws (TypeError) exactly when the receiver is null/undefined. -/
def isNullJ : JVal → Bool
  | .jnull => true
  | _ => false

/-- Nullish-coalescing default after a property read. -/
def orDefault (v : Option JVal) (d : JVal) : JVal :=
  match v with
  | some .jnull => d
  | some w => w
  | none => d

/-- Factor sub-score: `s.factors.X ?? 0` (no clamping, `??` only). -/
def factorScore (fs : List (List Char × JVal)) (k : List Char) : JVal :=
  orDefault (getVal fs k) (.jnum (.val 0))

/-- The all-zero factors object used when `s.factors` is not a plain object. -/
def zeroFactors : JVal :=
  .jobj [(strL "stepCount", .jnum (.val 0)),
         (strL "dataDependencies", .jnum (.val 0)),
         (strL "conditionalLogic", .jnum (.val 0)),
         (strL "technicalDifficulty", .jnum (.val 0))]

/-- The factors object built for one scenario entry from the value of
`s.factors`: `typeof s.factors === "object"` is true for null, so a null
`factors` throws on its sub-score reads; a plain object is read with `?? 0`
defaults; arrays and non-objects fall to the all-zero factors. -/
def factorsResult (factorsV : Option JVal) : Except Unit JVal :=
  match factorsV with
  | some .jnull => .error ()
  | some (.jobj fs) =>
    .ok (.jobj [(strL "stepCount", factorScore fs (strL "stepCount")),
                (strL "dataDependencies",
                  factorScore fs (strL "dataDependencies")),
                (strL "conditionalLogic",
                  factorScore fs (strL "conditionalLogic")),
                (strL "technicalDifficulty",
                  factorScore fs (strL "technicalDifficulty"))])
  | _ => .ok zeroFactors

/-- Shaping of one raw scenario entry (the mapper in the adapter,
src/unnamed openai module lines 239-256).  A null entry makes the property
reads (`s.name`, ...) throw; otherwise the reads are defined and only a null
`factors` value can throw. -/
def analyzeScenarioEntry (s : JVal) : Except Unit JVal :=
  if isNullJ s then .error () else
    (factorsResult (jGet s (strL "factors"))).map (fun factors =>
      .jobj [(strL "name",
                orDefault (jGet s (strL "name")) (.jstr (strL "Unnamed Scenario"))),
             (strL "complexity",
                .jnum (codeComplexity (jGet s (strL "complexity")))),
             (strL "factors", factors),
             (strL "explanation", orDefault (jGet s (strL "explanation")) (.jstr []))])

/-- The JavaScript `array.map` over a throwing mapper: elements are mapped
left to right and the first throw propagates. -/
def mapExcept (f : JVal → Except Unit JVal) : List JVal → Except Unit (List JVal)
  | [] => .ok []
  | x :: xs =>
    match f x with
    | .error e => .error e
    | .ok y =>
      match mapExcept f xs with
      | .error e => .error e
      | .ok ys => .ok (y :: ys)

/-- Embedding of the response shaping of `analyzeFeatureComplexity`
(src/unnamed openai module lines 237-258).  The argument is the JSON value the
collaborator's response parsed to (the HTTP call and `JSON.parse` happen
before this shaping); `.error` models the TypeErrors the shaping itself can
throw (property reads on a null value, `.map` on a non-array `scenarios`),
which the enclosing catch rethrows.  `scenListOf` is the
`raw.scenarios ?? []` step feeding `.map`: a missing or null scenarios field
yields the empty array, an array yields its elements, and any other value has
no `.map` method and throws. -/
def scenListOf (v : Option JVal) : Except Unit (List JVal) :=
  match v with
  | some .jnull => .ok []
  | none => .ok []
  | some (.jarr xs) => .ok xs
  | some _ => .error ()

/-- The top-level response shaping, continued from `scenListOf` above. -/
def analyzeFeatureComplexity (raw : JVal) : Except Unit JVal :=
  if isNullJ raw then .error () else
    (scenListOf (jGet raw (strL "scenarios"))).bind (fun scenariosList =>
      (mapExcept analyzeScenarioEntry scenariosList).map (fun entries =>
        .jobj [(strL "overallComplexity",
                  .jnum (codeComplexity (jGet raw (strL "overallComplexity")))),
               (strL "scenarios", .jarr entries),
               (strL "recommendations",
                  orDefault (jGet raw (strL "recommendations")) (.jarr []))]))

/-- Clamping policy as the spec's words state it (spec section 4.2): a numeric
score is clamped into `[1, 10]`, a missing or non-numeric score defaults
to 1.  Stated separately from the code's `codeComplexity` so the two can be
compared. -/
def specClampComplexity (v : Option JVal) : JNum :=
  match v with
  | some (.jnum (.val q)) => .val (min 10 (max 1 q))
  | _ => .val 1

/-! ## The PATCH /api/features/:id reconciliation step -/

/-- The slice of a stored Feature row the reconciliation step touches.
`analysisJson` is the stored serialized analysis, modelled by its parse
outcome as in `analysisTitlesFromJson`. -/
structure Feature where
  generatedContent : Option (List Char)
  scenarioCount : Option Int
  analysisJson : Option (Option JVal)

/-- Fields of the PATCH body relevant to reconciliation; `none` means the key
is not in the update (the route drops undefined values).  A provided
`analysisJson` string is again modelled by its parse outcome. -/
structure PatchUpdate where
  generatedContent : Option (List Char)
  scenarioCount : Option Int
  analysisJson : Option (Option JVal)

/-- Partial update through `storage.updateFeature`: provided keys overwrite,
absent keys keep the stored value. -/
def applyUpdate (f : Feature) (u : PatchUpdate) : Feature :=
  { generatedContent :=
      match u.generatedContent with
      | some x => some x
      | none => f.generatedContent,
    scenarioCount :=
      match u.scenarioCount with
      | some x => some x
      | none => f.scenarioCount,
    analysisJson :=
      match u.analysisJson with
      | some x => some x
      | none => f.analysisJson }

/-- Embedding of the reconciliation step of `app.patch("/api/features/:id")`
(src/server/routes.ts:704-747): save the edits, decide `needsReanalysis`
(content edited iff a string `generatedContent` was provided, hint changed iff
a numeric `scenarioCount` was provided), and if so run the scoring call and
store the normalized result - catching any failure so the patch still
succeeds with the previous analysis intact.  `apiResult` is the parse outcome
of the external scoring response (`.error` for a failed call), which then
passes through the adapter's shaping.  `patchHint` is the desired-length hint
`typeof updateData.scenarioCount === "number" ? updateData.scenarioCount
: updated.scenarioCount`. -/
def patchHint (u : PatchUpdate) (updated : Feature) : Option Int :=
  match u.scenarioCount with
  | some n => some n
  | none => updated.scenarioCount

/-- Continuation of the doc above: the update saved first, the decision, and
the guarded scoring-and-normalize step. -/
def patchFeature (f : Feature) (u : PatchUpdate)
    (apiResult : Except Unit JVal) : Feature :=
  if needsReanalysis (applyUpdate f u).generatedContent
      (applyUpdate f u).analysisJson
      u.generatedContent.isSome u.scenarioCount.isSome then
    match apiResult.bind analyzeFeatureComplexity with
    | .error _ => applyUpdate f u
    | .ok raw =>
      { applyUpdate f u with
        analysisJson := some (some (jsonRoundTrip
          (normalizeAnalysisToText raw
            ((applyUpdate f u).generatedContent.getD [])
            (patchHint u (applyUpdate f u))))) }
  else applyUpdate f u

/-! ## Helper lemmas -/

/-- Stripping a literal succeeds exactly by peeling that prefix off. -/
theorem dropLit_eq_some :
    ∀ (p l r : List Char), dropLit p l = some r → l = p ++ r := by
  intro p
  induction p with
  | nil =>
    intro l r h
    simp only [dropLit, Option.some.injEq] at h
    simp [h]
  | cons c p ih =>
    intro l r h
    cases l with
    | nil => simp [dropLit] at h
    | cons d l =>
      simp only [dropLit] at h
      by_cases hd : d = c
      · subst hd
        simp only [if_pos rfl] at h
        simpa using ih l r h
      · simp [hd] at h

/-- Element-wise disagreement of equal-length title lists, as the source's
index loop computes it. -/
theorem zip_any_ne_iff :
    ∀ (xs ys : List (List Char)), xs.length = ys.length →
      (((xs.zip ys).any fun p => decide (p.1 ≠ p.2)) = true ↔
        ∃ i, i < xs.length ∧ xs.getD i [] ≠ ys.getD i []) := by
  intro xs
  induction xs with
  | nil =>
    intro ys h
    simp
  | cons x xs ih =>
    intro ys h
    cases ys with
    | nil => simp at h
    | cons y ys =>
      have hlen : xs.length = ys.length := by simpa using h
      simp only [List.zip_cons_cons, List.any_cons, Bool.or_eq_true,
        decide_eq_true_eq, List.length_cons]
      rw [ih ys hlen]
      constructor
      · rintro (hne | ⟨i, hi, hne⟩)
        · exact ⟨0, by omega, by simpa using hne⟩
        · exact ⟨i + 1, by omega, by simpa using hne⟩
      · rintro ⟨i, hi, hne⟩
        cases i with
        | zero => exact Or.inl (by simpa using hne)
        | succ n => exact Or.inr ⟨n, by omega, by simpa using hne⟩

/-! ## C1: the reanalysis decision -/

/-- C1: for every feature text, stored analysis and flags, `needsReanalysis`
is true exactly when a flag is set, or the title list extracted from the text
and the one stored in the analysis (empty when absent) differ in length, or
agree in length but differ at some position; otherwise it is false. -/
theorem needsReanalysis_iff (featureText : Option (List Char))
    (existingAnalysisJson : Option (Option JVal))
    (contentEdited scenarioCountHintChanged : Bool) :
    needsReanalysis featureText existingAnalysisJson
        contentEdited scenarioCountHintChanged = true ↔
      (contentEdited = true ∨ scenarioCountHintChanged = true ∨
        (parseScenarioTitles featureText).length ≠
          (analysisTitlesFromJson existingAnalysisJson).length ∨
        ∃ i, i < (parseScenarioTitles featureText).length ∧
          (parseScenarioTitles featureText).getD i [] ≠
            (analysisTitlesFromJson existingAnalysisJson).getD i []) := by
  unfold needsReanalysis
  cases contentEdited with
  | true => simp
  | false =>
    cases scenarioCountHintChanged with
    | true => simp
    | false =>
      simp only [Bool.or_self, Bool.false_eq_true, if_false, false_or]
      by_cases hlen : (parseScenarioTitles featureText).length =
          (analysisTitlesFromJson existingAnalysisJson).length
      · rw [if_neg (by simpa using hlen)]
        rw [zip_any_ne_iff _ _ hlen]
        constructor
        · intro h
          exact Or.inr h
        · rintro (h | h)
          · exact absurd hlen h
          · exact h
      · rw [if_pos (by simpa using hlen)]
        simp [hlen]

/-! ## C2: keyword matching is anchored at line start -/

/-- First example line of property P1. -/
def lineA : List Char := strL "Scenario: A"

/-- Second example line of property P1. -/
def lineB : List Char := strL "Scenario Outline: B"

/-- The P1 line carrying the keyword only mid-line, inside a quoted step. -/
def quotedStepLine : List Char := strL "Given a string \"Scenario: fake\""

/-- C2: the extractor takes exactly the anchored headings, in order.  First:
on the concrete P1 text the result is the list A, B.  Second: for any text
splitting into the two heading lines and one unmatched line in any position,
the result is the list A, B.  Third: a line only ever matches when, after
stripping leading whitespace, it begins with the literal keyword
`Scenario:` or `Scenario Outline:` - so a keyword mid-line never matches. -/
theorem parseScenarioTitles_anchored :
    (parseScenarioTitles
        (some (lineA ++ '\n' :: (quotedStepLine ++ '\n' :: lineB))) =
      [strL "A", strL "B"])
  ∧ (∀ t g, lineTitle g = none →
      (splitLines t = [lineA, lineB, g] ∨ splitLines t = [lineA, g, lineB] ∨
        splitLines t = [g, lineA, lineB]) →
      parseScenarioTitles (some t) = [strL "A", strL "B"])
  ∧ (∀ l res, lineTitle l = some res →
      (∃ r, dropWs l = strL "Scenario:" ++ r) ∨
      (∃ r, dropWs l = strL "Scenario Outline:" ++ r)) := by
  refine ⟨by rfl, ?_, ?_⟩
  · intro t g hg hsplit
    have hA : lineTitle lineA = some (strL "A") := by rfl
    have hB : lineTitle lineB = some (strL "B") := by rfl
    have hne : t.isEmpty = false := by
      cases ht : t.isEmpty
      · rfl
      · exfalso
        have ht' : t = [] := by
          cases t with
          | nil => rfl
          | cons a l => simp [List.isEmpty] at ht
        subst ht'
        simp [splitLines] at hsplit
    have hp : parseScenarioTitles (some t) =
        if t.isEmpty then [] else (splitLines t).filterMap lineTitle := rfl
    rw [hp]
    simp only [hne, Bool.false_eq_true, if_false]
    rcases hsplit with h | h | h <;>
      rw [h] <;> simp [List.filterMap_cons, hA, hB, hg]
  · intro l res h
    unfold lineTitle at h
    cases hk : afterKw (dropWs l) with
    | none => rw [hk] at h; exact absurd h (by simp)
    | some rest =>
      unfold afterKw at hk
      cases h1 : dropLit (strL "Scenario") (dropWs l) with
      | none => rw [h1] at hk; exact absurd hk (by simp)
      | some r =>
        rw [h1] at hk
        have hbase := dropLit_eq_some _ _ _ h1
        have hk2 : (match dropLit (strL " Outline:") r with
            | some r2 => some r2
            | none => dropLit (strL ":") r) = some rest := hk
        cases h2 : dropLit (strL " Outline:") r with
        | some r2 =>
          have hout := dropLit_eq_some _ _ _ h2
          refine Or.inr ⟨r2, ?_⟩
          rw [hbase, hout]
          rfl
        | none =>
          rw [h2] at hk2
          cases h3 : dropLit (strL ":") r with
          | none => rw [h3] at hk2; exact absurd hk2 (by simp)
          | some r3 =>
            have hcol := dropLit_eq_some _ _ _ h3
            refine Or.inl ⟨r3, ?_⟩
            rw [hbase, hcol]
            rfl

/-- Witness for C2: the unmatched-line hypothesis holds for the concrete
quoted-step line, and the extractor returns exactly the two titles on the
three-line text with that line in the middle. -/
theorem parseScenarioTitles_anchored_witness :
    lineTitle quotedStepLine = none ∧
      parseScenarioTitles
        (some (lineA ++ '\n' :: (quotedStepLine ++ '\n' :: lineB))) =
        [strL "A", strL "B"] :=
  ⟨rfl, parseScenarioTitles_anchored.2.1
    (lineA ++ '\n' :: (quotedStepLine ++ '\n' :: lineB)) quotedStepLine rfl
    (Or.inr (Or.inl rfl))⟩

/-! ## Association-list lemmas for object fields -/

/-- Keys of a field list. -/
def keysOf (fs : List (List Char × JVal)) : List (List Char) :=
  fs.map Prod.fst

/-- Keys of a cons cell. -/
theorem keysOf_cons (p : List Char × JVal) (fs : List (List Char × JVal)) :
    keysOf (p :: fs) = p.1 :: keysOf fs := rfl

/-- Keys of an append. -/
theorem keysOf_append (fs1 fs2 : List (List Char × JVal)) :
    keysOf (fs1 ++ fs2) = keysOf fs1 ++ keysOf fs2 := by
  simp [keysOf]

/-- Lookup unfolding on a cons cell. -/
theorem getVal_cons (p : List Char × JVal) (fs : List (List Char × JVal))
    (k : List Char) :
    getVal (p :: fs) k =
      match getVal fs k with
      | some v => some v
      | none => if p.1 = k then some p.2 else none := rfl

/-- Mapping a pointwise-fixed function over a list changes nothing. -/
theorem map_id_of_mem {α : Type} (g : α → α) :
    ∀ l : List α, (∀ p ∈ l, g p = p) → l.map g = l := by
  intro l
  induction l with
  | nil => intro _; rfl
  | cons x xs ih =>
    intro h
    rw [List.map_cons, h x (List.mem_cons_self x xs),
      ih (fun p hp => h p (List.mem_cons_of_mem x hp))]

/-- A key absent from the field list looks up to nothing. -/
theorem getVal_eq_none_of_not_mem :
    ∀ (fs : List (List Char × JVal)) (k : List Char),
      k ∉ keysOf fs → getVal fs k = none := by
  intro fs k
  induction fs with
  | nil => intro _; rfl
  | cons p fs ih =>
    intro h
    rw [keysOf_cons] at h
    have hk : p.1 ≠ k := fun he => h (he ▸ List.mem_cons_self _ _)
    have htail : k ∉ keysOf fs := fun hm => h (List.mem_cons_of_mem _ hm)
    rw [getVal_cons, ih htail]
    simp [hk]

/-- Key membership matches the `any` test `setKey` branches on. -/
theorem any_key_iff (fs : List (List Char × JVal)) (k : List Char) :
    (fs.any fun p => decide (p.1 = k)) = true ↔ k ∈ keysOf fs := by
  simp only [List.any_eq_true, decide_eq_true_eq, keysOf, List.mem_map]

/-- With unique keys, a member is exactly what its key looks up to. -/
theorem getVal_of_nodup_mem :
    ∀ fs : List (List Char × JVal), (keysOf fs).Nodup →
      ∀ p ∈ fs, getVal fs p.1 = some p.2 := by
  intro fs
  induction fs with
  | nil => intro _ p hp; simp at hp
  | cons q fs ih =>
    intro h p hp
    rw [keysOf_cons, List.nodup_cons] at h
    rcases List.mem_cons.1 hp with he | hm
    · subst he
      rw [getVal_cons, getVal_eq_none_of_not_mem fs p.1 h.1]
      simp
    · rw [getVal_cons, ih h.2 p hm]

/-- Keys survive a key-preserving map. -/
theorem keysOf_map_keyfix (g : (List Char × JVal) → (List Char × JVal))
    (hkey : ∀ p, (g p).1 = p.1) :
    ∀ fs : List (List Char × JVal), keysOf (fs.map g) = keysOf fs := by
  intro fs
  induction fs with
  | nil => rfl
  | cons p fs ih =>
    rw [List.map_cons, keysOf_cons, keysOf_cons, hkey p, ih]

/-- Lookup through a key-preserving map that also preserves the values held
at the looked-up key. -/
theorem getVal_map_of_keyfix (g : (List Char × JVal) → (List Char × JVal))
    (k : List Char) (hkey : ∀ p, (g p).1 = p.1)
    (hval : ∀ p, p.1 = k → (g p).2 = p.2) :
    ∀ fs : List (List Char × JVal), getVal (fs.map g) k = getVal fs k := by
  intro fs
  induction fs with
  | nil => rfl
  | cons p fs ih =>
    rw [List.map_cons, getVal_cons, getVal_cons, ih]
    cases hv : getVal fs k with
    | some v => rfl
    | none =>
      rw [hkey p]
      by_cases hk : p.1 = k
      · simp [hk, hval p hk]
      · simp [hk]

/-- Setting a present key by mapping makes it look up to the new value. -/
theorem getVal_map_set (k : List Char) (v : JVal) :
    ∀ fs : List (List Char × JVal),
      (fs.any fun p => decide (p.1 = k)) = true →
      getVal (fs.map fun p => if p.1 = k then (k, v) else p) k = some v := by
  intro fs
  induction fs with
  | nil => intro h; simp at h
  | cons p fs ih =>
    intro h
    rw [List.map_cons, getVal_cons]
    by_cases htail : (fs.any fun p => decide (p.1 = k)) = true
    · rw [ih htail]
    · have hp : p.1 = k := by
        simp only [List.any_cons, Bool.or_eq_true, decide_eq_true_eq] at h
        rcases h with h | h
        · exact h
        · exact absurd h htail
      have hnone : getVal (fs.map fun p => if p.1 = k then (k, v) else p) k
          = none := by
        apply getVal_eq_none_of_not_mem
        rw [keysOf_map_keyfix]
        · intro hm
          exact htail ((any_key_iff fs k).2 hm)
        · intro q
          by_cases hq : q.1 = k
          · simp [hq]
          · simp [hq]
      rw [hnone, if_pos hp]
      simp

/-- Lookup after appending fields. -/
theorem getVal_append (fs1 fs2 : List (List Char × JVal)) (k : List Char) :
    getVal (fs1 ++ fs2) k =
      match getVal fs2 k with
      | some v => some v
      | none => getVal fs1 k := by
  induction fs1 with
  | nil =>
    rw [List.nil_append]
    cases hv : getVal fs2 k with
    | some v => rfl
    | none => rfl
  | cons p fs1 ih =>
    rw [List.cons_append, getVal_cons, ih, getVal_cons]
    cases hv : getVal fs2 k with
    | some v => rfl
    | none =>
      cases hv1 : getVal fs1 k with
      | some w => rfl
      | none => rfl

/-- A freshly set key looks up to its new value. -/
theorem getVal_setKey_self (fs : List (List Char × JVal)) (k : List Char)
    (v : JVal) : getVal (setKey fs k v) k = some v := by
  unfold setKey
  by_cases h : (fs.any fun p => decide (p.1 = k)) = true
  · rw [if_pos h]
    exact getVal_map_set k v fs h
  · rw [if_neg h, getVal_append]
    have hone : getVal [(k, v)] k = some v := by
      rw [getVal_cons]
      simp [getVal]
    rw [hone]

/-- Setting one key leaves every other key's lookup unchanged. -/
theorem getVal_setKey_other (fs : List (List Char × JVal))
    (k k' : List Char) (v : JVal) (h : k' ≠ k) :
    getVal (setKey fs k v) k' = getVal fs k' := by
  unfold setKey
  by_cases hany : (fs.any fun p => decide (p.1 = k)) = true
  · rw [if_pos hany]
    apply getVal_map_of_keyfix
    · intro p
      by_cases hp : p.1 = k
      · simp [hp]
      · simp [hp]
    · intro p hp
      have hne : ¬ p.1 = k := fun he => h (by rw [← hp, he])
      simp [hne]
  · rw [if_neg hany, getVal_append]
    have hone : getVal [(k, v)] k' = none := by
      rw [getVal_cons]
      have hne : ¬ k = k' := fun he => h he.symm
      simp [getVal, hne]
    rw [hone]

/-- Keys after `setKey`: unchanged when the key was present, the key appended
otherwise. -/
theorem keysOf_setKey (fs : List (List Char × JVal)) (k : List Char)
    (v : JVal) :
    keysOf (setKey fs k v) =
      if (fs.any fun p => decide (p.1 = k)) = true then keysOf fs
      else keysOf fs ++ [k] := by
  unfold setKey
  by_cases h : (fs.any fun p => decide (p.1 = k)) = true
  · rw [if_pos h, if_pos h]
    apply keysOf_map_keyfix
    intro p
    by_cases hp : p.1 = k
    · simp [hp]
    · simp [hp]
  · rw [if_neg h, if_neg h, keysOf_append]
    rfl

/-- `setKey` preserves key uniqueness. -/
theorem nodup_keys_setKey (fs : List (List Char × JVal)) (k : List Char)
    (v : JVal) (h : (keysOf fs).Nodup) : (keysOf (setKey fs k v)).Nodup := by
  rw [keysOf_setKey]
  by_cases hany : (fs.any fun p => decide (p.1 = k)) = true
  · rw [if_pos hany]
    exact h
  · rw [if_neg hany]
    have hnot : k ∉ keysOf fs := fun hm => hany ((any_key_iff fs k).2 hm)
    refine List.Nodup.append h (List.nodup_singleton k) ?_
    intro x hx hx1
    rw [List.mem_singleton] at hx1
    exact hnot (hx1 ▸ hx)

/-- Folding assignments keeps keys unique. -/
theorem nodup_keys_foldl_setKey :
    ∀ (fs acc : List (List Char × JVal)), (keysOf acc).Nodup →
      (keysOf (fs.foldl (fun a p => setKey a p.1 p.2) acc)).Nodup := by
  intro fs
  induction fs with
  | nil => intro acc h; simpa using h
  | cons p fs ih =>
    intro acc h
    rw [List.foldl_cons]
    exact ih _ (nodup_keys_setKey acc p.1 p.2 h)

/-- Spread fields always have unique keys. -/
theorem nodup_keys_jSpreadFields (v : JVal) :
    (keysOf (jSpreadFields v)).Nodup := by
  unfold jSpreadFields
  exact nodup_keys_foldl_setKey _ [] (by simp [keysOf])

/-- Folding assignments of fresh unique keys just appends them. -/
theorem foldl_setKey_eq_append :
    ∀ (fs acc : List (List Char × JVal)), (keysOf (acc ++ fs)).Nodup →
      fs.foldl (fun a p => setKey a p.1 p.2) acc = acc ++ fs := by
  intro fs
  induction fs with
  | nil => intro acc _; simp
  | cons p fs ih =>
    intro acc h
    have hd := h
    rw [keysOf_append, keysOf_cons, List.nodup_append] at hd
    have hnotin : p.1 ∉ keysOf acc :=
      fun hm => hd.2.2 hm (List.mem_cons_self _ _)
    have hset : setKey acc p.1 p.2 = acc ++ [p] := by
      unfold setKey
      rw [if_neg (fun hany => hnotin ((any_key_iff acc p.1).1 hany))]
    have hkeys : keysOf ((acc ++ [p]) ++ fs) = keysOf (acc ++ p :: fs) := by
      rw [List.append_assoc, List.singleton_append]
    rw [List.foldl_cons, hset, ih (acc ++ [p]) (hkeys ▸ h),
      List.append_assoc, List.singleton_append]

/-- Spreading an object with unique keys reproduces its fields. -/
theorem jSpreadFields_jobj (fs : List (List Char × JVal))
    (h : (keysOf fs).Nodup) : jSpreadFields (.jobj fs) = fs := by
  unfold jSpreadFields jFieldsRaw
  have := foldl_setKey_eq_append fs [] (by simpa using h)
  simpa using this

/-- Re-assigning the value a unique key already holds changes nothing. -/
theorem setKey_noop (fs : List (List Char × JVal)) (k : List Char) (v : JVal)
    (hnd : (keysOf fs).Nodup) (hv : getVal fs k = some v) :
    setKey fs k v = fs := by
  have hmem : k ∈ keysOf fs := by
    by_contra hm
    rw [getVal_eq_none_of_not_mem fs k hm] at hv
    exact Option.noConfusion hv
  unfold setKey
  rw [if_pos ((any_key_iff fs k).2 hmem)]
  apply map_id_of_mem
  intro p hp
  obtain ⟨p1, p2⟩ := p
  by_cases hk : p1 = k
  · subst hk
    have hval := getVal_of_nodup_mem fs hnd (p1, p2) hp
    have h2 : v = p2 := Option.some.inj (hv.symm.trans hval)
    simp [h2]
  · simp [hk]

/-! ## Normalization shape lemmas -/

/-- Indexed map preserves length. -/
theorem length_mapWithIndex (f : Nat → JVal → JVal) :
    ∀ (n : Nat) (l : List JVal), (mapWithIndex f n l).length = l.length := by
  intro n l
  induction l generalizing n with
  | nil => rfl
  | cons x xs ih => simp [mapWithIndex, ih]

/-- Padding or truncating yields exactly the desired length. -/
theorem length_padTruncate (titles : List (List Char)) (d : Nat)
    (s0 : List JVal) : (padTruncate titles d s0).length = d := by
  unfold padTruncate
  by_cases h1 : s0.length < d
  · rw [if_pos h1]
    simp only [List.length_append, List.length_map, List.length_range]
    omega
  · rw [if_neg h1]
    by_cases h2 : d < s0.length
    · rw [if_pos h2]
      simp only [List.length_take]
      omega
    · rw [if_neg h2]
      omega

/-- Reading the scenario array back out of an object. -/
theorem scenariosOf_eq (v : JVal) :
    scenariosOf v =
      match jGet v (strL "scenarios") with
      | some (.jarr xs) => xs
      | _ => [] := rfl

/-- Property read on an object literal. -/
theorem jGet_jobj (fs : List (List Char × JVal)) (k : List Char) :
    jGet (.jobj fs) k = getVal fs k := rfl

/-- The scenario array stored by the final object literal of normalization. -/
theorem scenariosOf_jobj_set (fs : List (List Char × JVal)) (xs : List JVal) :
    scenariosOf (.jobj (setKey fs (strL "scenarios") (.jarr xs))) = xs := by
  rw [scenariosOf_eq, jGet_jobj, getVal_setKey_self]

/-- The normalized analysis holds exactly the mapped scenario array. -/
theorem scenariosOf_normalize (a : JVal) (t : List Char) (h : Option Int) :
    scenariosOf (normalizeAnalysisToText a t h) =
      mapWithIndex (forceHeading (parseScenarioTitles (some t))) 0
        (padTruncate (parseScenarioTitles (some t))
          (desiredLenOf (parseScenarioTitles (some t)) h) (scenariosOf a)) := by
  have hne : normalizeAnalysisToText a t h =
      .jobj (setKey (jSpreadFields a) (strL "scenarios")
        (.jarr (mapWithIndex (forceHeading (parseScenarioTitles (some t))) 0
          (padTruncate (parseScenarioTitles (some t))
            (desiredLenOf (parseScenarioTitles (some t)) h)
            (scenariosOf a))))) := rfl
  rw [hne, scenariosOf_jobj_set]

/-! ## C3: normalized length is the max of headings and hint -/

/-- Example text with a single heading, for the P7 hint-widening instance. -/
def hintText : List Char := strL "Scenario: Only"

/-- Example one-entry raw analysis for the P7 hint-widening instance. -/
def hintRaw : JVal :=
  .jobj [(strL "scenarios", .jarr [.jobj [(strL "name", .jstr (strL "Only"))]])]

/-- C3: for every raw analysis, feature text and hint, the normalized
scenario array has length `max(headings in text, hint or 0)`; concretely,
1 heading, 1 raw entry and hint 3 produce 3 entries whose two synthesized
placeholders are titled Scenario 2 and Scenario 3. -/
theorem normalize_length (a : JVal) (t : List Char) (h : Option Int) :
    ((scenariosOf (normalizeAnalysisToText a t h)).length =
      max (parseScenarioTitles (some t)).length (h.getD 0).toNat)
    ∧ (scenariosOf (normalizeAnalysisToText hintRaw hintText (some 3))).length = 3
    ∧ jGet ((scenariosOf (normalizeAnalysisToText hintRaw hintText (some 3))).getD 1
        JVal.jnull) (strL "title") = some (.jstr (strL "Scenario 2"))
    ∧ jGet ((scenariosOf (normalizeAnalysisToText hintRaw hintText (some 3))).getD 2
        JVal.jnull) (strL "title") = some (.jstr (strL "Scenario 3")) := by
  refine ⟨?_, by rfl, by rfl, by rfl⟩
  rw [scenariosOf_normalize, length_mapWithIndex, length_padTruncate]
  rfl

/-! ## Entry-level lemmas for padding and truncation -/

/-- Element of an indexed map. -/
theorem getElem?_mapWithIndex (f : Nat → JVal → JVal) :
    ∀ (n : Nat) (l : List JVal) (i : Nat),
      (mapWithIndex f n l)[i]? = l[i]?.map (f (n + i)) := by
  intro n l
  induction l generalizing n with
  | nil => intro i; simp [mapWithIndex]
  | cons x xs ih =>
    intro i
    cases i with
    | zero => simp [mapWithIndex]
    | succ j =>
      have hstep : mapWithIndex f n (x :: xs) =
          f n x :: mapWithIndex f (n + 1) xs := rfl
      rw [hstep, List.getElem?_cons_succ, List.getElem?_cons_succ, ih (n + 1) j]
      have harith : n + 1 + j = n + (j + 1) := by omega
      rw [harith]

/-- Titles and names both read back the forced heading. -/
theorem jGet_forceHeading (titles : List (List Char)) (i : Nat) (s : JVal) :
    jGet (forceHeading titles i s) (strL "title") =
        some (headingOf titles i s)
    ∧ jGet (forceHeading titles i s) (strL "name") =
        some (headingOf titles i s) := by
  unfold forceHeading
  constructor
  · rw [jGet_jobj, getVal_setKey_other _ _ _ _ (by decide), getVal_setKey_self]
  · rw [jGet_jobj, getVal_setKey_self]

/-- Keys other than title and name keep their spread value. -/
theorem jGet_forceHeading_other (titles : List (List Char)) (i : Nat)
    (s : JVal) (k : List Char) (h1 : k ≠ strL "title") (h2 : k ≠ strL "name") :
    jGet (forceHeading titles i s) k = getVal (jSpreadFields s) k := by
  unfold forceHeading
  rw [jGet_jobj, getVal_setKey_other _ _ _ _ h2, getVal_setKey_other _ _ _ _ h1]

/-- The heading chosen for a placeholder is its own synthesized title. -/
theorem headingOf_placeholder (titles : List (List Char)) (i : Nat) :
    headingOf titles i (placeholderEntry titles i) =
      .jstr (titles.getD i (strL "Scenario " ++ (Nat.repr (i + 1)).data)) := by
  unfold headingOf
  cases hg : titles[i]? with
  | some ti =>
    have hgd : titles.getD i (strL "Scenario " ++ (Nat.repr (i + 1)).data)
        = ti := by
      rw [List.getD_eq_getElem?_getD, hg]
      rfl
    rw [hgd]
  | none => rfl

/-- Retitling fixes placeholder entries. -/
theorem forceHeading_placeholder (titles : List (List Char)) (i : Nat) :
    forceHeading titles i (placeholderEntry titles i) =
      placeholderEntry titles i := by
  have hsp : jSpreadFields (placeholderEntry titles i) =
      [(strL "title", JVal.jstr (titles.getD i
          (strL "Scenario " ++ (Nat.repr (i + 1)).data))),
       (strL "name", JVal.jstr (titles.getD i
          (strL "Scenario " ++ (Nat.repr (i + 1)).data))),
       (strL "complexity", JVal.jstr (strL "Unknown")),
       (strL "details", JVal.jstr (strL "Pending analysis"))] := by
    apply jSpreadFields_jobj
    show ([strL "title", strL "name", strL "complexity",
      strL "details"]).Nodup
    decide
  have hnd : (keysOf
      [(strL "title", JVal.jstr (titles.getD i
          (strL "Scenario " ++ (Nat.repr (i + 1)).data))),
       (strL "name", JVal.jstr (titles.getD i
          (strL "Scenario " ++ (Nat.repr (i + 1)).data))),
       (strL "complexity", JVal.jstr (strL "Unknown")),
       (strL "details", JVal.jstr (strL "Pending analysis"))]).Nodup := by
    show ([strL "title", strL "name", strL "complexity",
      strL "details"]).Nodup
    decide
  have h1 : setKey
      [(strL "title", JVal.jstr (titles.getD i
          (strL "Scenario " ++ (Nat.repr (i + 1)).data))),
       (strL "name", JVal.jstr (titles.getD i
          (strL "Scenario " ++ (Nat.repr (i + 1)).data))),
       (strL "complexity", JVal.jstr (strL "Unknown")),
       (strL "details", JVal.jstr (strL "Pending analysis"))]
      (strL "title") (JVal.jstr (titles.getD i
          (strL "Scenario " ++ (Nat.repr (i + 1)).data))) =
      [(strL "title", JVal.jstr (titles.getD i
          (strL "Scenario " ++ (Nat.repr (i + 1)).data))),
       (strL "name", JVal.jstr (titles.getD i
          (strL "Scenario " ++ (Nat.repr (i + 1)).data))),
       (strL "complexity", JVal.jstr (strL "Unknown")),
       (strL "details", JVal.jstr (strL "Pending analysis"))] :=
    setKey_noop _ _ _ hnd rfl
  have h2 : setKey
      [(strL "title", JVal.jstr (titles.getD i
          (strL "Scenario " ++ (Nat.repr (i + 1)).data))),
       (strL "name", JVal.jstr (titles.getD i
          (strL "Scenario " ++ (Nat.repr (i + 1)).data))),
       (strL "complexity", JVal.jstr (strL "Unknown")),
       (strL "details", JVal.jstr (strL "Pending analysis"))]
      (strL "name") (JVal.jstr (titles.getD i
          (strL "Scenario " ++ (Nat.repr (i + 1)).data))) =
      [(strL "title", JVal.jstr (titles.getD i
          (strL "Scenario " ++ (Nat.repr (i + 1)).data))),
       (strL "name", JVal.jstr (titles.getD i
          (strL "Scenario " ++ (Nat.repr (i + 1)).data))),
       (strL "complexity", JVal.jstr (strL "Unknown")),
       (strL "details", JVal.jstr (strL "Pending analysis"))] :=
    setKey_noop _ _ _ hnd rfl
  unfold forceHeading
  rw [headingOf_placeholder, hsp, h1, h2]
  rfl

/-- Reading fields out of a placeholder entry. -/
theorem jGet_placeholder (titles : List (List Char)) (i : Nat) :
    jGet (placeholderEntry titles i) (strL "title") =
        some (.jstr (titles.getD i (strL "Scenario " ++ (Nat.repr (i + 1)).data)))
    ∧ jGet (placeholderEntry titles i) (strL "name") =
        some (.jstr (titles.getD i (strL "Scenario " ++ (Nat.repr (i + 1)).data)))
    ∧ jGet (placeholderEntry titles i) (strL "complexity") =
        some (.jstr (strL "Unknown"))
    ∧ jGet (placeholderEntry titles i) (strL "details") =
        some (.jstr (strL "Pending analysis")) :=
  ⟨rfl, rfl, rfl, rfl⟩

/-- Entry of the padded-and-retitled scenario array: below the raw length it
is the retitled raw entry, above it is the placeholder at that index. -/
theorem getElem?_normalize_pad (a : JVal) (t : List Char) (h : Option Int)
    (i : Nat)
    (hlt : (scenariosOf a).length < desiredLenOf (parseScenarioTitles (some t)) h) :
    (i < (scenariosOf a).length →
      (scenariosOf (normalizeAnalysisToText a t h))[i]? =
        ((scenariosOf a)[i]?).map (forceHeading (parseScenarioTitles (some t)) i))
    ∧ ((scenariosOf a).length ≤ i →
        i < desiredLenOf (parseScenarioTitles (some t)) h →
        (scenariosOf (normalizeAnalysisToText a t h))[i]? =
          some (placeholderEntry (parseScenarioTitles (some t)) i)) := by
  rw [scenariosOf_normalize]
  have hpad : padTruncate (parseScenarioTitles (some t))
      (desiredLenOf (parseScenarioTitles (some t)) h) (scenariosOf a) =
      (scenariosOf a) ++
        (List.range (desiredLenOf (parseScenarioTitles (some t)) h -
          (scenariosOf a).length)).map
          (fun j => placeholderEntry (parseScenarioTitles (some t))
            ((scenariosOf a).length + j)) := by
    unfold padTruncate
    rw [if_pos hlt]
  rw [hpad]
  constructor
  · intro hi
    rw [getElem?_mapWithIndex]
    rw [List.getElem?_append]
    rw [if_pos hi]
    simp
  · intro hge hd
    rw [getElem?_mapWithIndex]
    rw [List.getElem?_append]
    rw [if_neg (by omega)]
    rw [List.getElem?_map]
    have hr : (List.range (desiredLenOf (parseScenarioTitles (some t)) h -
        (scenariosOf a).length))[i - (scenariosOf a).length]? =
        some (i - (scenariosOf a).length) := by
      rw [List.getElem?_range (by omega)]
    rw [hr]
    show some (forceHeading _ (0 + i) (placeholderEntry _
      ((scenariosOf a).length + (i - (scenariosOf a).length)))) = _
    have harith : (scenariosOf a).length + (i - (scenariosOf a).length) = i := by
      omega
    rw [harith, Nat.zero_add, forceHeading_placeholder]

/-- Entry of the truncated-and-retitled scenario array. -/
theorem getElem?_normalize_trunc (a : JVal) (t : List Char) (h : Option Int)
    (i : Nat)
    (hgt : desiredLenOf (parseScenarioTitles (some t)) h < (scenariosOf a).length)
    (hi : i < desiredLenOf (parseScenarioTitles (some t)) h) :
    (scenariosOf (normalizeAnalysisToText a t h))[i]? =
      ((scenariosOf a)[i]?).map (forceHeading (parseScenarioTitles (some t)) i) := by
  rw [scenariosOf_normalize]
  have htr : padTruncate (parseScenarioTitles (some t))
      (desiredLenOf (parseScenarioTitles (some t)) h) (scenariosOf a) =
      (scenariosOf a).take (desiredLenOf (parseScenarioTitles (some t)) h) := by
    unfold padTruncate
    rw [if_neg (by omega), if_pos hgt]
  rw [htr, getElem?_mapWithIndex, List.getElem?_take, if_pos hi, Nat.zero_add]

/-! ## C4: padding keeps raw entries and appends pending placeholders -/

/-- C4: when the raw analysis is shorter than the desired length, the output
keeps the raw entries in order, each passed through the heading-forcing map
(so its title and name become the text heading at that index when one
exists), and fills the shortfall with placeholders whose title and name are
the heading at that index or `Scenario (i+1)`, and whose complexity and
details carry the pending markers. -/
theorem normalize_padding (a : JVal) (t : List Char) (h : Option Int)
    (hlt : (scenariosOf a).length <
      desiredLenOf (parseScenarioTitles (some t)) h) :
    ((scenariosOf (normalizeAnalysisToText a t h)).length =
        desiredLenOf (parseScenarioTitles (some t)) h)
    ∧ (∀ i, i < (scenariosOf a).length →
        (scenariosOf (normalizeAnalysisToText a t h))[i]? =
          some (forceHeading (parseScenarioTitles (some t)) i
            ((scenariosOf a).getD i JVal.jnull)))
    ∧ (∀ i, i < (scenariosOf a).length →
        i < (parseScenarioTitles (some t)).length →
        jGet ((scenariosOf (normalizeAnalysisToText a t h)).getD i JVal.jnull)
            (strL "title") =
          some (.jstr ((parseScenarioTitles (some t)).getD i []))
        ∧ jGet ((scenariosOf (normalizeAnalysisToText a t h)).getD i JVal.jnull)
            (strL "name") =
          some (.jstr ((parseScenarioTitles (some t)).getD i [])))
    ∧ (∀ i, (scenariosOf a).length ≤ i →
        i < desiredLenOf (parseScenarioTitles (some t)) h →
        (scenariosOf (normalizeAnalysisToText a t h))[i]? =
          some (placeholderEntry (parseScenarioTitles (some t)) i)
        ∧ jGet ((scenariosOf (normalizeAnalysisToText a t h)).getD i JVal.jnull)
            (strL "title") =
          some (.jstr ((parseScenarioTitles (some t)).getD i
            (strL "Scenario " ++ (Nat.repr (i + 1)).data)))
        ∧ jGet ((scenariosOf (normalizeAnalysisToText a t h)).getD i JVal.jnull)
            (strL "name") =
          some (.jstr ((parseScenarioTitles (some t)).getD i
            (strL "Scenario " ++ (Nat.repr (i + 1)).data)))
        ∧ jGet ((scenariosOf (normalizeAnalysisToText a t h)).getD i JVal.jnull)
            (strL "complexity") = some (.jstr (strL "Unknown"))
        ∧ jGet ((scenariosOf (normalizeAnalysisToText a t h)).getD i JVal.jnull)
            (strL "details") = some (.jstr (strL "Pending analysis"))) := by
  have hraw : ∀ i, i < (scenariosOf a).length →
      (scenariosOf (normalizeAnalysisToText a t h))[i]? =
        some (forceHeading (parseScenarioTitles (some t)) i
          ((scenariosOf a).getD i JVal.jnull)) := by
    intro i hi
    rw [((getElem?_normalize_pad a t h i hlt).1) hi]
    rw [List.getElem?_eq_getElem hi]
    rw [List.getD_eq_getElem?_getD, List.getElem?_eq_getElem hi]
    rfl
  have hplace : ∀ i, (scenariosOf a).length ≤ i →
      i < desiredLenOf (parseScenarioTitles (some t)) h →
      (scenariosOf (normalizeAnalysisToText a t h))[i]? =
        some (placeholderEntry (parseScenarioTitles (some t)) i) :=
    fun i hge hd => ((getElem?_normalize_pad a t h i hlt).2) hge hd
  refine ⟨?_, hraw, ?_, ?_⟩
  · rw [scenariosOf_normalize, length_mapWithIndex, length_padTruncate]
  · intro i hi ht
    have hout := hraw i hi
    have hgd : (scenariosOf (normalizeAnalysisToText a t h)).getD i JVal.jnull =
        forceHeading (parseScenarioTitles (some t)) i
          ((scenariosOf a).getD i JVal.jnull) := by
      rw [List.getD_eq_getElem?_getD, hout]
      rfl
    rw [hgd]
    have hti : (parseScenarioTitles (some t))[i]? =
        some ((parseScenarioTitles (some t)).getD i []) := by
      rw [List.getElem?_eq_getElem ht]
      rw [List.getD_eq_getElem?_getD, List.getElem?_eq_getElem ht]
      rfl
    have hhead : headingOf (parseScenarioTitles (some t)) i
        ((scenariosOf a).getD i JVal.jnull) =
        .jstr ((parseScenarioTitles (some t)).getD i []) := by
      unfold headingOf
      rw [hti]
    exact ⟨(jGet_forceHeading _ _ _).1.trans (by rw [hhead]),
      (jGet_forceHeading _ _ _).2.trans (by rw [hhead])⟩
  · intro i hge hd
    have hout := hplace i hge hd
    have hgd : (scenariosOf (normalizeAnalysisToText a t h)).getD i JVal.jnull =
        placeholderEntry (parseScenarioTitles (some t)) i := by
      rw [List.getD_eq_getElem?_getD, hout]
      rfl
    rw [hgd]
    exact ⟨hout, (jGet_placeholder _ _).1, (jGet_placeholder _ _).2.1,
      (jGet_placeholder _ _).2.2.1, (jGet_placeholder _ _).2.2.2⟩

/-- Witness text (4 headings) for the P5 padding instance. -/
def padText : List Char :=
  strL "Scenario: H1\nScenario: H2\nScenario: H3\nScenario: H4"

/-- Witness raw analysis (2 entries) for the P5 padding instance. -/
def padRaw : JVal :=
  .jobj [(strL "scenarios", .jarr
    [.jobj [(strL "name", .jstr (strL "model one")),
            (strL "complexity", .jnum (.val 3))],
     .jobj [(strL "title", .jstr (strL "model two")),
            (strL "complexity", .jnum (.val 7))]])]

/-- Witness for C4 at the P5 instance: 2 raw entries, 4 headings, no hint -
the hypothesis holds and the four entries come out as the theorem states,
with the third placeholder titled by heading 3. -/
theorem normalize_padding_witness :
    ((scenariosOf padRaw).length <
      desiredLenOf (parseScenarioTitles (some padText)) none)
    ∧ (scenariosOf (normalizeAnalysisToText padRaw padText none)).length =
        desiredLenOf (parseScenarioTitles (some padText)) none
    ∧ jGet ((scenariosOf (normalizeAnalysisToText padRaw padText none)).getD 2
        JVal.jnull) (strL "title") =
      some (.jstr ((parseScenarioTitles (some padText)).getD 2
        (strL "Scenario " ++ (Nat.repr 3).data)))
    ∧ jGet ((scenariosOf (normalizeAnalysisToText padRaw padText none)).getD 2
        JVal.jnull) (strL "complexity") = some (.jstr (strL "Unknown")) := by
  have hlt : (scenariosOf padRaw).length <
      desiredLenOf (parseScenarioTitles (some padText)) none := by decide
  have hmain := normalize_padding padRaw padText none hlt
  exact ⟨hlt, hmain.1,
    (hmain.2.2.2 2 (by decide) (by decide)).2.1,
    (hmain.2.2.2 2 (by decide) (by decide)).2.2.2.1⟩

/-! ## C5: truncation keeps exactly the first desiredLen entries -/

/-- Witness text (2 headings) for the P6 truncation instance. -/
def truncText : List Char := strL "Scenario: A\nScenario: B"

/-- Witness raw analysis (5 entries) for the P6 truncation instance. -/
def truncRaw : JVal :=
  .jobj [(strL "scenarios", .jarr
    [.jobj [(strL "name", .jstr (strL "e1"))],
     .jobj [(strL "name", .jstr (strL "e2"))],
     .jobj [(strL "name", .jstr (strL "e3"))],
     .jobj [(strL "name", .jstr (strL "e4"))],
     .jobj [(strL "name", .jstr (strL "e5"))]])]

/-- C5: when the raw analysis is longer than the desired length, the output
has exactly `desiredLen` entries, and entry `i` is the `i`-th raw entry (in
order) passed through the heading-forcing map; the remaining raw entries are
dropped.  Concretely (P6): 5 raw entries, 2 headings and no hint produce
exactly 2 entries whose titles are the 2 headings. -/
theorem normalize_truncation (a : JVal) (t : List Char) (h : Option Int)
    (hgt : desiredLenOf (parseScenarioTitles (some t)) h <
      (scenariosOf a).length) :
    ((scenariosOf (normalizeAnalysisToText a t h)).length =
        desiredLenOf (parseScenarioTitles (some t)) h)
    ∧ (∀ i, i < desiredLenOf (parseScenarioTitles (some t)) h →
        (scenariosOf (normalizeAnalysisToText a t h))[i]? =
          some (forceHeading (parseScenarioTitles (some t)) i
            ((scenariosOf a).getD i JVal.jnull)))
    ∧ (scenariosOf (normalizeAnalysisToText truncRaw truncText none)).length = 2
    ∧ jGet ((scenariosOf (normalizeAnalysisToText truncRaw truncText none)).getD 0
        JVal.jnull) (strL "title") = some (.jstr (strL "A"))
    ∧ jGet ((scenariosOf (normalizeAnalysisToText truncRaw truncText none)).getD 1
        JVal.jnull) (strL "title") = some (.jstr (strL "B")) := by
  refine ⟨?_, ?_, by rfl, by rfl, by rfl⟩
  · rw [scenariosOf_normalize, length_mapWithIndex, length_padTruncate]
  · intro i hi
    rw [getElem?_normalize_trunc a t h i hgt hi]
    have hil : i < (scenariosOf a).length := by omega
    rw [List.getElem?_eq_getElem hil,
      List.getD_eq_getElem?_getD, List.getElem?_eq_getElem hil]
    rfl

/-- Witness for C5 at the P6 instance: the truncation hypothesis holds and
the first output entry is the retitled first raw entry. -/
theorem normalize_truncation_witness :
    (desiredLenOf (parseScenarioTitles (some truncText)) none <
      (scenariosOf truncRaw).length)
    ∧ (scenariosOf (normalizeAnalysisToText truncRaw truncText none)).length =
        desiredLenOf (parseScenarioTitles (some truncText)) none
    ∧ (scenariosOf (normalizeAnalysisToText truncRaw truncText none))[0]? =
        some (forceHeading (parseScenarioTitles (some truncText)) 0
          ((scenariosOf truncRaw).getD 0 JVal.jnull)) := by
  have hgt : desiredLenOf (parseScenarioTitles (some truncText)) none <
      (scenariosOf truncRaw).length := by decide
  have hmain := normalize_truncation truncRaw truncText none hgt
  exact ⟨hgt, hmain.1, hmain.2.1 0 (by decide)⟩

/-! ## Adapter lemmas -/

/-- A successful `mapExcept` maps every element successfully, in place. -/
theorem mapExcept_ok {f : JVal → Except Unit JVal} :
    ∀ (xs ys : List JVal), mapExcept f xs = .ok ys →
      ys.length = xs.length ∧
      ∀ i, i < xs.length →
        f (xs.getD i JVal.jnull) = .ok (ys.getD i JVal.jnull) := by
  intro xs
  induction xs with
  | nil =>
    intro ys h
    have hys : ys = [] := by
      unfold mapExcept at h
      injection h with h1
      exact h1.symm
    subst hys
    exact ⟨rfl, fun i hi => by simp at hi⟩
  | cons x xs ih =>
    intro ys h
    unfold mapExcept at h
    cases hfx : f x with
    | error e => rw [hfx] at h; exact absurd h (by simp)
    | ok y =>
      rw [hfx] at h
      cases hrest : mapExcept f xs with
      | error e => rw [hrest] at h; exact absurd h (by simp)
      | ok ys' =>
        rw [hrest] at h
        have hys : ys = y :: ys' := by
          injection h with h1
          exact h1.symm
        subst hys
        obtain ⟨hlen, hel⟩ := ih ys' hrest
        refine ⟨by simp [hlen], ?_⟩
        intro i hi
        cases i with
        | zero => simpa using hfx
        | succ j =>
          have hj := hel j (by simpa using hi)
          simpa using hj

/-- What a successfully shaped scenario entry contains: the clamped
complexity of the raw entry's score, the defaulted name, and zero factors
when the raw entry has no factors object. -/
theorem analyzeScenarioEntry_ok (s y : JVal)
    (h : analyzeScenarioEntry s = .ok y) :
    jGet y (strL "complexity") =
        some (.jnum (codeComplexity (jGet s (strL "complexity"))))
    ∧ jGet y (strL "name") =
        some (orDefault (jGet s (strL "name")) (.jstr (strL "Unnamed Scenario")))
    ∧ (jGet s (strL "factors") = none →
        jGet y (strL "factors") = some zeroFactors) := by
  unfold analyzeScenarioEntry at h
  cases hnull : isNullJ s with
  | true => rw [hnull] at h; exact absurd h (by simp)
  | false =>
    rw [hnull] at h
    simp only [Bool.false_eq_true, if_false] at h
    cases hfr : factorsResult (jGet s (strL "factors")) with
    | error e =>
      rw [hfr] at h
      exact Except.noConfusion h
    | ok factors =>
      rw [hfr] at h
      have hy : y = .jobj
          [(strL "name",
              orDefault (jGet s (strL "name")) (.jstr (strL "Unnamed Scenario"))),
           (strL "complexity",
              .jnum (codeComplexity (jGet s (strL "complexity")))),
           (strL "factors", factors),
           (strL "explanation", orDefault (jGet s (strL "explanation")) (.jstr []))] := by
        injection h with h1
        exact h1.symm
      subst hy
      refine ⟨rfl, rfl, ?_⟩
      intro hnone
      have : factors = zeroFactors := by
        rw [hnone] at hfr
        unfold factorsResult at hfr
        injection hfr with h2
        exact h2.symm
      rw [this]
      rfl

/-- What a successful shaping of the whole response contains: the clamped
overall score, and one successfully shaped entry per raw scenario entry. -/
theorem analyzeFeatureComplexity_ok (raw out : JVal)
    (h : analyzeFeatureComplexity raw = .ok out) :
    jGet out (strL "overallComplexity") =
        some (.jnum (codeComplexity (jGet raw (strL "overallComplexity"))))
    ∧ (scenariosOf out).length = (scenariosOf raw).length
    ∧ ∀ i, i < (scenariosOf raw).length →
        analyzeScenarioEntry ((scenariosOf raw).getD i JVal.jnull) =
          .ok ((scenariosOf out).getD i JVal.jnull) := by
  unfold analyzeFeatureComplexity at h
  cases hnull : isNullJ raw with
  | true => rw [hnull] at h; exact absurd h (by simp)
  | false =>
    rw [hnull] at h
    simp only [Bool.false_eq_true, if_false] at h
    cases hs : scenListOf (jGet raw (strL "scenarios")) with
    | error e =>
      rw [hs] at h
      exact Except.noConfusion h
    | ok scenariosList =>
      rw [hs] at h
      have h2 : (mapExcept analyzeScenarioEntry scenariosList).map
          (fun entries => JVal.jobj
            [(strL "overallComplexity",
                .jnum (codeComplexity (jGet raw (strL "overallComplexity")))),
             (strL "scenarios", .jarr entries),
             (strL "recommendations",
                orDefault (jGet raw (strL "recommendations")) (.jarr []))]) =
          .ok out := h
      cases hm : mapExcept analyzeScenarioEntry scenariosList with
      | error e =>
        rw [hm] at h2
        exact Except.noConfusion h2
      | ok entries =>
        rw [hm] at h2
        have hout : out = .jobj
            [(strL "overallComplexity",
                .jnum (codeComplexity (jGet raw (strL "overallComplexity")))),
             (strL "scenarios", .jarr entries),
             (strL "recommendations",
                orDefault (jGet raw (strL "recommendations")) (.jarr []))] := by
          injection h2 with h1
          exact h1.symm
        subst hout
        have hlist : scenariosOf raw = scenariosList := by
          unfold scenariosOf
          cases hg : jGet raw (strL "scenarios") with
          | none =>
            rw [hg] at hs
            have h3 : Except.ok ([] : List JVal) = Except.ok scenariosList := hs
            injection h3 with h4
          | some v =>
            rw [hg] at hs
            cases v with
            | jnull =>
              have h3 : Except.ok ([] : List JVal) = Except.ok scenariosList := hs
              injection h3 with h4
            | jarr xs =>
              have h3 : Except.ok xs = Except.ok scenariosList := hs
              injection h3 with h4
            | jbool b => exact Except.noConfusion hs
            | jnum n => exact Except.noConfusion hs
            | jstr t => exact Except.noConfusion hs
            | jobj fs => exact Except.noConfusion hs
        obtain ⟨hlen, hel⟩ := mapExcept_ok scenariosList entries hm
        have hsout : scenariosOf (JVal.jobj
            [(strL "overallComplexity",
                .jnum (codeComplexity (jGet raw (strL "overallComplexity")))),
             (strL "scenarios", .jarr entries),
             (strL "recommendations",
                orDefault (jGet raw (strL "recommendations")) (.jarr []))]) =
            entries := rfl
        rw [hsout, hlist]
        exact ⟨rfl, hlen, fun i hi => (hel i hi).symm ▸ hel i hi⟩

/-! ## C6: numeric clamping in the adapter (corrected) -/

/-- Concrete raw response whose single scenario carries the non-numeric
complexity score "high". -/
def c6raw : JVal :=
  .jobj [(strL "overallComplexity", .jnum (.val 5)),
         (strL "scenarios", .jarr [.jobj [(strL "complexity", .jstr (strL "high"))]]),
         (strL "recommendations", .jarr [])]

/-- Value carried by a successful adapter run (null on failure). -/
def exOut : Except Unit JVal → JVal
  | .ok v => v
  | .error _ => .jnull

/-- Success test for an adapter run. -/
def isOkJ : Except Unit JVal → Bool
  | .ok _ => true
  | .error _ => false

/-- Counterexample to C6 as stated: on a raw response whose per-scenario
complexity is the non-numeric string "high", the adapter succeeds but stores
complexity NaN - the score is neither defaulted to 1 nor clamped into
[1, 10], while the spec's clamping rule would give 1. -/
theorem analyzeFeatureComplexity_nonnumeric_counterexample :
    isOkJ (analyzeFeatureComplexity c6raw) = true
    ∧ jGet ((scenariosOf (exOut (analyzeFeatureComplexity c6raw))).getD 0
        JVal.jnull) (strL "complexity") = some (.jnum .nan)
    ∧ JNum.nan ≠ JNum.val 1
    ∧ specClampComplexity (some (.jstr (strL "high"))) = .val 1 :=
  ⟨rfl, rfl, by decide, rfl⟩

/-- C6 (amended): numeric scores are clamped to [1, 10] and falsy scores
(missing, null, false, 0) default to 1, which agrees with the spec's
clamping rule on those inputs - but a truthy non-numeric score is coerced by
JavaScript rules instead of defaulting to 1 (a numeric string is parsed and
clamped, anything unparsable becomes NaN); factor sub-scores default to 0
when absent or null and pass through unclamped otherwise; and every
successful adapter run applies exactly this score computation to the overall
and per-scenario scores of the raw response. -/
theorem analyzeFeatureComplexity_clamping :
    (∀ q : Rat, codeComplexity (some (.jnum (.val q))) = .val (min 10 (max 1 q)))
    ∧ (∀ v, (v = none ∨ v = some JVal.jnull ∨ v = some (.jbool false) ∨
        v = some (.jnum (.val 0))) → codeComplexity v = .val 1)
    ∧ codeComplexity (some (.jnum (.val 15))) = .val 10
    ∧ (∀ v, (v = none ∨ v = some JVal.jnull ∨ v = some (.jbool false) ∨
        (∃ q : Rat, v = some (.jnum (.val q)))) →
        codeComplexity v = specClampComplexity v)
    ∧ codeComplexity (some (.jstr (strL "high"))) = .nan
    ∧ codeComplexity (some (.jstr (strL "7"))) = .val 7
    ∧ (∀ fs k, getVal fs k = none → factorScore fs k = .jnum (.val 0))
    ∧ (∀ fs k v, getVal fs k = some v → v ≠ .jnull → factorScore fs k = v)
    ∧ (∀ raw out, analyzeFeatureComplexity raw = .ok out →
        jGet out (strL "overallComplexity") =
          some (.jnum (codeComplexity (jGet raw (strL "overallComplexity"))))
        ∧ (scenariosOf out).length = (scenariosOf raw).length
        ∧ ∀ i, i < (scenariosOf raw).length →
            analyzeScenarioEntry ((scenariosOf raw).getD i JVal.jnull) =
              .ok ((scenariosOf out).getD i JVal.jnull))
    ∧ (∀ s y, analyzeScenarioEntry s = .ok y →
        jGet y (strL "complexity") =
          some (.jnum (codeComplexity (jGet s (strL "complexity"))))
        ∧ (jGet s (strL "factors") = none →
            jGet y (strL "factors") = some zeroFactors)) := by
  have hq : ∀ q : Rat, codeComplexity (some (.jnum (.val q))) =
      .val (min 10 (max 1 q)) := by
    intro q
    have hstep : codeComplexity (some (.jnum (.val q))) =
        jsMin (.val 10) (jsMax (.val 1)
          (if jsTruthy (.jnum (.val q)) = true then toNumberJ (.jnum (.val q))
           else .val 1)) := rfl
    by_cases hz : q = 0
    · subst hz
      have hf : jsTruthy (.jnum (.val 0)) = false := rfl
      rw [hstep, hf]
      simp only [Bool.false_eq_true, if_false]
      have hred : jsMin (JNum.val 10) (jsMax (JNum.val 1) (JNum.val 1)) =
          JNum.val 1 := rfl
      rw [hred]
      have harith : (10 : Rat) ⊓ ((1 : Rat) ⊔ 0) = 1 := by norm_num
      rw [harith]
    · have ht : jsTruthy (.jnum (.val q)) = true := by
        show decide (q ≠ 0) = true
        simpa using hz
      rw [hstep, ht]
      have hif : (if (true = true) then toNumberJ (.jnum (.val q))
          else JNum.val 1) = toNumberJ (.jnum (.val q)) := if_pos rfl
      rw [hif]
      show JNum.val (if (10 : Rat) ≤ (if (1 : Rat) ≤ q then q else 1)
          then (10 : Rat) else (if (1 : Rat) ≤ q then q else 1)) =
        JNum.val (min 10 (max 1 q))
      by_cases h1 : (1 : Rat) ≤ q
      · rw [if_pos h1, max_eq_right h1]
        by_cases h2 : (10 : Rat) ≤ q
        · rw [if_pos h2, min_eq_left h2]
        · rw [if_neg h2, min_eq_right (le_of_not_le h2)]
      · rw [if_neg h1, max_eq_left (le_of_not_le h1),
          if_neg (by norm_num : ¬ (10 : Rat) ≤ 1),
          min_eq_right (by norm_num : (1 : Rat) ≤ 10)]
  have hstr7 : strToNum (strL "7") =
      .val (((7 : Nat) : Rat) * (10 : Rat) ^ (0 : Nat)) := rfl
  have hstr7v : strToNum (strL "7") = .val 7 := by
    rw [hstr7]
    norm_num
  have h7 : codeComplexity (some (.jstr (strL "7"))) = .val 7 := by
    have hcc : codeComplexity (some (.jstr (strL "7"))) =
        jsMin (.val 10) (jsMax (.val 1) (strToNum (strL "7"))) := rfl
    rw [hcc, hstr7v]
    rfl
  refine ⟨hq, ?_, ?_, ?_, by rfl, h7, ?_, ?_, ?_, ?_⟩
  · rintro v (rfl | rfl | rfl | rfl) <;> rfl
  · have harith : (10 : Rat) ⊓ ((1 : Rat) ⊔ 15) = 10 := by norm_num
    rw [hq 15, harith]
  · rintro v (rfl | rfl | rfl | ⟨q, rfl⟩)
    · rfl
    · rfl
    · rfl
    · rw [hq q]
      rfl
  · intro fs k hk
    unfold factorScore orDefault
    rw [hk]
  · intro fs k v hk hv
    unfold factorScore orDefault
    rw [hk]
    cases v with
    | jnull => exact absurd rfl hv
    | jbool b => rfl
    | jnum n => rfl
    | jstr t => rfl
    | jarr xs => rfl
    | jobj gs => rfl
  · intro raw out h
    exact analyzeFeatureComplexity_ok raw out h
  · intro s y h
    exact ⟨(analyzeScenarioEntry_ok s y h).1, (analyzeScenarioEntry_ok s y h).2.2⟩

/-- Witness raw response for the amended C6: overall 15, one scenario with
score 0 and no factors. -/
def c6okRaw : JVal :=
  .jobj [(strL "overallComplexity", .jnum (.val 15)),
         (strL "scenarios", .jarr [.jobj [(strL "complexity", .jnum (.val 0))]]),
         (strL "recommendations", .jarr [])]

/-- Witness for the amended C6: the adapter run on the concrete response
succeeds, and the theorem yields the clamped overall score 10 there, the
defaulted per-scenario score 1, and the zero factors. -/
theorem analyzeFeatureComplexity_clamping_witness :
    (analyzeFeatureComplexity c6okRaw = .ok (exOut (analyzeFeatureComplexity c6okRaw))
      ∧ some (JVal.jnum (.val 0)) = some (JVal.jnum (.val 0))
      ∧ getVal [] (strL "stepCount") = (none : Option JVal))
    ∧ jGet (exOut (analyzeFeatureComplexity c6okRaw)) (strL "overallComplexity") =
        some (.jnum (codeComplexity (jGet c6okRaw (strL "overallComplexity"))))
    ∧ codeComplexity (some (.jnum (.val 15))) = .val 10
    ∧ codeComplexity (some (.jnum (.val 0))) = .val 1
    ∧ factorScore [] (strL "stepCount") = .jnum (.val 0) := by
  have hmain := analyzeFeatureComplexity_clamping
  have hok : analyzeFeatureComplexity c6okRaw =
      .ok (exOut (analyzeFeatureComplexity c6okRaw)) := rfl
  refine ⟨⟨hok, rfl, rfl⟩, ?_, hmain.2.2.1, ?_, ?_⟩
  · exact (hmain.2.2.2.2.2.2.2.2.1 c6okRaw _ hok).1
  · exact hmain.2.1 (some (.jnum (.val 0))) (Or.inr (Or.inr (Or.inr rfl)))
  · exact hmain.2.2.2.2.2.2.1 [] (strL "stepCount") rfl

/-! ## C7: a failed scoring call never touches the stored analysis -/

/-- C7: if the scoring call (or the adapter's shaping of its response) throws
during the PATCH reconciliation, the resulting feature is exactly the saved
edits - the patch succeeds rather than propagating the failure - and in
particular, when the update itself does not write `analysisJson`, the
previously stored analysis is unchanged. -/
theorem patchFeature_failure_isolation (f : Feature) (u : PatchUpdate)
    (apiResult : Except Unit JVal)
    (hu : u.analysisJson = none)
    (herr : apiResult.bind analyzeFeatureComplexity = .error ()) :
    patchFeature f u apiResult = applyUpdate f u
    ∧ (patchFeature f u apiResult).analysisJson = f.analysisJson := by
  have hmain : patchFeature f u apiResult = applyUpdate f u := by
    unfold patchFeature
    rw [herr]
    split
    · rfl
    · rfl
  refine ⟨hmain, ?_⟩
  rw [hmain]
  unfold applyUpdate
  rw [hu]

/-- Witness feature for C7. -/
def c7feature : Feature :=
  { generatedContent := some (strL "Scenario: Old"),
    scenarioCount := some 1,
    analysisJson := some (some (.jobj [(strL "scenarios",
      .jarr [.jobj [(strL "title", .jstr (strL "Old"))]])])) }

/-- Witness update for C7: the text is edited, nothing writes analysisJson. -/
def c7update : PatchUpdate :=
  { generatedContent := some (strL "Scenario: New"),
    scenarioCount := none,
    analysisJson := none }

/-- Witness for C7: with a failing scoring call, the patched feature is
exactly the saved edits and its stored analysis is byte-for-byte the old
one. -/
theorem patchFeature_failure_isolation_witness :
    (c7update.analysisJson = none
      ∧ (Except.error () : Except Unit JVal).bind analyzeFeatureComplexity =
          .error ())
    ∧ patchFeature c7feature c7update (.error ()) = applyUpdate c7feature c7update
    ∧ (patchFeature c7feature c7update (.error ())).analysisJson =
        c7feature.analysisJson :=
  ⟨⟨rfl, rfl⟩,
    (patchFeature_failure_isolation c7feature c7update (.error ()) rfl rfl).1,
    (patchFeature_failure_isolation c7feature c7update (.error ()) rfl rfl).2⟩

/-! ## C8: total decision and total normalization, degrading gracefully -/

/-- C8: the decision and normalization functions are total on every modelled
input and degrade gracefully: absent and unparseable stored analyses, and
analyses without a scenarios array, yield the empty title list; an absent
text yields the empty heading list, so the decision reduces to the flags and
whether any titles are stored; and normalization always returns an analysis
whose scenario array has exactly the desired length, for every input. -/
theorem reconciliation_total :
    (analysisTitlesFromJson none = [])
    ∧ (analysisTitlesFromJson (some none) = [])
    ∧ (∀ v : JVal, (∀ xs : List JVal,
        jGet v (strL "scenarios") ≠ some (.jarr xs)) →
        analysisTitlesFromJson (some (some v)) = [])
    ∧ (parseScenarioTitles none = [])
    ∧ (∀ aj ce sc, needsReanalysis none aj ce sc =
        (ce || sc || !(analysisTitlesFromJson aj).isEmpty))
    ∧ (∀ (a : JVal) (t : List Char) (h : Option Int),
        (scenariosOf (normalizeAnalysisToText a t h)).length =
          desiredLenOf (parseScenarioTitles (some t)) h) := by
  refine ⟨rfl, rfl, ?_, rfl, ?_, ?_⟩
  · intro v hv
    cases hg : jGet v (strL "scenarios") with
    | none => simp [analysisTitlesFromJson, hg]
    | some w =>
      cases w with
      | jnull => simp [analysisTitlesFromJson, hg]
      | jbool b => simp [analysisTitlesFromJson, hg]
      | jnum n => simp [analysisTitlesFromJson, hg]
      | jstr s => simp [analysisTitlesFromJson, hg]
      | jarr xs => exact absurd hg (hv xs)
      | jobj fs => simp [analysisTitlesFromJson, hg]
  · intro aj ce sc
    cases hA : analysisTitlesFromJson aj with
    | nil =>
      cases ce <;> cases sc <;>
        simp [needsReanalysis, hA, parseScenarioTitles]
    | cons x xs =>
      cases ce <;> cases sc <;>
        simp [needsReanalysis, hA, parseScenarioTitles]
  · intro a t h
    rw [scenariosOf_normalize, length_mapWithIndex, length_padTruncate]

/-- Witness for C8: the no-scenarios-array hypothesis holds for a plain
string analysis value, and the degradations are exactly as stated there. -/
theorem reconciliation_total_witness :
    (∀ xs : List JVal, jGet (JVal.jstr (strL "oops")) (strL "scenarios") ≠
        some (.jarr xs))
    ∧ analysisTitlesFromJson (some (some (JVal.jstr (strL "oops")))) = [] :=
  ⟨fun _ h => Option.noConfusion h,
    reconciliation_total.2.2.1 (JVal.jstr (strL "oops"))
      (fun _ h => Option.noConfusion h)⟩

/-! ## Idempotence machinery -/

/-- A nullish-coalescing read only ever returns a non-null value. -/
theorem jCoalesceField_ne_null (s : JVal) (k : List Char) (v : JVal)
    (h : jCoalesceField s k = some v) : v ≠ .jnull := by
  unfold jCoalesceField at h
  cases hg : jGet s k with
  | none => rw [hg] at h; exact Option.noConfusion h
  | some w =>
    rw [hg] at h
    cases w with
    | jnull => exact Option.noConfusion h
    | jbool b => injection h with h1; subst h1; intro he; exact JVal.noConfusion he
    | jnum n => injection h with h1; subst h1; intro he; exact JVal.noConfusion he
    | jstr t => injection h with h1; subst h1; intro he; exact JVal.noConfusion he
    | jarr xs => injection h with h1; subst h1; intro he; exact JVal.noConfusion he
    | jobj fs => injection h with h1; subst h1; intro he; exact JVal.noConfusion he

/-- A non-null stored value coalesces to itself. -/
theorem jCoalesceField_of_get (s : JVal) (k : List Char) (v : JVal)
    (h : jGet s k = some v) (hv : v ≠ .jnull) :
    jCoalesceField s k = some v := by
  unfold jCoalesceField
  rw [h]
  cases v with
  | jnull => exact absurd rfl hv
  | jbool b => rfl
  | jnum n => rfl
  | jstr t => rfl
  | jarr xs => rfl
  | jobj fs => rfl

/-- The chosen heading is never null. -/
theorem headingOf_ne_null (titles : List (List Char)) (i : Nat) (s : JVal) :
    headingOf titles i s ≠ .jnull := by
  unfold headingOf
  cases hg : titles[i]? with
  | some t0 => intro he; exact JVal.noConfusion he
  | none =>
    cases hc : jCoalesceField s (strL "title") with
    | some v => exact jCoalesceField_ne_null s _ v hc
    | none =>
      cases hc2 : jCoalesceField s (strL "name") with
      | some v => exact jCoalesceField_ne_null s _ v hc2
      | none => intro he; exact JVal.noConfusion he

/-- The fields of a retitled entry have unique keys. -/
theorem nodup_keys_force (s : JVal) (hd : JVal) :
    (keysOf (setKey (setKey (jSpreadFields s) (strL "title") hd)
      (strL "name") hd)).Nodup :=
  nodup_keys_setKey _ _ _ (nodup_keys_setKey _ _ _ (nodup_keys_jSpreadFields s))

/-- Retitling an already retitled entry picks the same heading. -/
theorem headingOf_forceHeading (titles : List (List Char)) (i : Nat)
    (s : JVal) :
    headingOf titles i (forceHeading titles i s) = headingOf titles i s := by
  cases hg : titles[i]? with
  | some t0 =>
    have h1 : headingOf titles i (forceHeading titles i s) = .jstr t0 := by
      unfold headingOf
      rw [hg]
    have h2 : headingOf titles i s = .jstr t0 := by
      unfold headingOf
      rw [hg]
    rw [h1, h2]
  | none =>
    have hco : jCoalesceField (forceHeading titles i s) (strL "title") =
        some (headingOf titles i s) :=
      jCoalesceField_of_get _ _ _ (jGet_forceHeading titles i s).1
        (headingOf_ne_null titles i s)
    have h1 : headingOf titles i (forceHeading titles i s) =
        match jCoalesceField (forceHeading titles i s) (strL "title") with
        | some v => v
        | none =>
          match jCoalesceField (forceHeading titles i s) (strL "name") with
          | some v => v
          | none => .jstr (strL "Scenario " ++ (Nat.repr (i + 1)).data) := by
      unfold headingOf
      rw [hg]
    rw [h1, hco]

/-- Retitling is idempotent on each entry. -/
theorem forceHeading_idem (titles : List (List Char)) (i : Nat) (s : JVal) :
    forceHeading titles i (forceHeading titles i s) = forceHeading titles i s := by
  have hnd : (keysOf (setKey (setKey (jSpreadFields s) (strL "title")
      (headingOf titles i s)) (strL "name") (headingOf titles i s))).Nodup :=
    nodup_keys_force s (headingOf titles i s)
  have hgetT : getVal (setKey (setKey (jSpreadFields s) (strL "title")
      (headingOf titles i s)) (strL "name") (headingOf titles i s))
      (strL "title") = some (headingOf titles i s) := by
    rw [getVal_setKey_other _ _ _ _ (by decide), getVal_setKey_self]
  have hgetN : getVal (setKey (setKey (jSpreadFields s) (strL "title")
      (headingOf titles i s)) (strL "name") (headingOf titles i s))
      (strL "name") = some (headingOf titles i s) := getVal_setKey_self _ _ _
  have hstep : forceHeading titles i (forceHeading titles i s) =
      JVal.jobj (setKey (setKey (jSpreadFields (forceHeading titles i s))
        (strL "title") (headingOf titles i (forceHeading titles i s)))
        (strL "name") (headingOf titles i (forceHeading titles i s))) := rfl
  rw [hstep, headingOf_forceHeading]
  have hsp : jSpreadFields (forceHeading titles i s) =
      setKey (setKey (jSpreadFields s) (strL "title")
        (headingOf titles i s)) (strL "name") (headingOf titles i s) := by
    rw [show forceHeading titles i s =
      JVal.jobj (setKey (setKey (jSpreadFields s) (strL "title")
        (headingOf titles i s)) (strL "name") (headingOf titles i s)) from rfl]
    exact jSpreadFields_jobj _ hnd
  rw [hsp, setKey_noop _ _ _ hnd hgetT, setKey_noop _ _ _ hnd hgetN]
  rfl

/-- Padding or truncation at the list's own length is the identity. -/
theorem padTruncate_of_length (titles : List (List Char)) (d : Nat)
    (l : List JVal) (hl : l.length = d) : padTruncate titles d l = l := by
  unfold padTruncate
  rw [hl]
  simp [lt_irrefl]

/-- An indexed map fixing every element in place is the identity. -/
theorem mapWithIndex_eq_self (f : Nat → JVal → JVal) :
    ∀ (n : Nat) (l : List JVal),
      (∀ i x, l[i]? = some x → f (n + i) x = x) →
      mapWithIndex f n l = l := by
  intro n l
  induction l generalizing n with
  | nil => intro _; rfl
  | cons x xs ih =>
    intro hfix
    have hhead : f n x = x := by
      have := hfix 0 x (by simp)
      simpa using this
    have htail : mapWithIndex f (n + 1) xs = xs := by
      apply ih
      intro i y hy
      have := hfix (i + 1) y (by simpa using hy)
      have harith : n + (i + 1) = n + 1 + i := by omega
      rw [harith] at this
      exact this
    show f n x :: mapWithIndex f (n + 1) xs = x :: xs
    rw [hhead, htail]

/-! ## C10: normalization is idempotent -/

/-- C10: normalizing an already normalized analysis with the same text and
hint changes nothing. -/
theorem normalize_idem (a : JVal) (t : List Char) (h : Option Int) :
    normalizeAnalysisToText (normalizeAnalysisToText a t h) t h =
      normalizeAnalysisToText a t h := by
  have hscen := scenariosOf_normalize a t h
  have hlen2 : (mapWithIndex (forceHeading (parseScenarioTitles (some t))) 0
      (padTruncate (parseScenarioTitles (some t))
        (desiredLenOf (parseScenarioTitles (some t)) h)
        (scenariosOf a))).length =
      desiredLenOf (parseScenarioTitles (some t)) h := by
    rw [length_mapWithIndex, length_padTruncate]
  have hpt2 : padTruncate (parseScenarioTitles (some t))
      (desiredLenOf (parseScenarioTitles (some t)) h)
      (mapWithIndex (forceHeading (parseScenarioTitles (some t))) 0
        (padTruncate (parseScenarioTitles (some t))
          (desiredLenOf (parseScenarioTitles (some t)) h)
          (scenariosOf a))) =
      mapWithIndex (forceHeading (parseScenarioTitles (some t))) 0
        (padTruncate (parseScenarioTitles (some t))
          (desiredLenOf (parseScenarioTitles (some t)) h)
          (scenariosOf a)) :=
    padTruncate_of_length _ _ _ hlen2
  have hmap2 : mapWithIndex (forceHeading (parseScenarioTitles (some t))) 0
      (mapWithIndex (forceHeading (parseScenarioTitles (some t))) 0
        (padTruncate (parseScenarioTitles (some t))
          (desiredLenOf (parseScenarioTitles (some t)) h)
          (scenariosOf a))) =
      mapWithIndex (forceHeading (parseScenarioTitles (some t))) 0
        (padTruncate (parseScenarioTitles (some t))
          (desiredLenOf (parseScenarioTitles (some t)) h)
          (scenariosOf a)) := by
    apply mapWithIndex_eq_self
    intro i x hx
    rw [getElem?_mapWithIndex] at hx
    cases hy : (padTruncate (parseScenarioTitles (some t))
        (desiredLenOf (parseScenarioTitles (some t)) h)
        (scenariosOf a))[i]? with
    | none => rw [hy] at hx; exact Option.noConfusion hx
    | some y =>
      rw [hy] at hx
      have hxy : x = forceHeading (parseScenarioTitles (some t)) (0 + i) y := by
        injection hx with h1
        exact h1.symm
      subst hxy
      rw [Nat.zero_add]
      exact forceHeading_idem _ _ _
  have hndFS : (keysOf (setKey (jSpreadFields a) (strL "scenarios")
      (.jarr (mapWithIndex (forceHeading (parseScenarioTitles (some t))) 0
        (padTruncate (parseScenarioTitles (some t))
          (desiredLenOf (parseScenarioTitles (some t)) h)
          (scenariosOf a)))))).Nodup :=
    nodup_keys_setKey _ _ _ (nodup_keys_jSpreadFields a)
  have hstep : normalizeAnalysisToText (normalizeAnalysisToText a t h) t h =
      JVal.jobj (setKey (jSpreadFields (normalizeAnalysisToText a t h))
        (strL "scenarios")
        (.jarr (mapWithIndex (forceHeading (parseScenarioTitles (some t))) 0
          (padTruncate (parseScenarioTitles (some t))
            (desiredLenOf (parseScenarioTitles (some t)) h)
            (scenariosOf (normalizeAnalysisToText a t h)))))) := rfl
  rw [hstep, hscen, hpt2, hmap2]
  have hsp : jSpreadFields (normalizeAnalysisToText a t h) =
      setKey (jSpreadFields a) (strL "scenarios")
        (.jarr (mapWithIndex (forceHeading (parseScenarioTitles (some t))) 0
          (padTruncate (parseScenarioTitles (some t))
            (desiredLenOf (parseScenarioTitles (some t)) h)
            (scenariosOf a)))) := by
    rw [show normalizeAnalysisToText a t h =
      JVal.jobj (setKey (jSpreadFields a) (strL "scenarios")
        (.jarr (mapWithIndex (forceHeading (parseScenarioTitles (some t))) 0
          (padTruncate (parseScenarioTitles (some t))
            (desiredLenOf (parseScenarioTitles (some t)) h)
            (scenariosOf a))))) from rfl]
    exact jSpreadFields_jobj _ hndFS
  rw [hsp, setKey_noop _ _ _ hndFS (getVal_setKey_self _ _ _)]
  rfl

/-! ## Round-trip machinery -/

/-- Round-trip over an array is an elementwise map. -/
theorem jsonRoundTripList_eq_map :
    ∀ l : List JVal, jsonRoundTripList l = l.map jsonRoundTrip := by
  intro l
  induction l with
  | nil => rfl
  | cons x xs ih => simp [jsonRoundTripList, ih]

/-- Lookup commutes with the field round-trip. -/
theorem getVal_jsonRoundTripFields :
    ∀ (fs : List (List Char × JVal)) (k : List Char),
      getVal (jsonRoundTripFields fs) k = (getVal fs k).map jsonRoundTrip := by
  intro fs k
  induction fs with
  | nil => rfl
  | cons p fs ih =>
    show (match getVal (jsonRoundTripFields fs) k with
      | some v => some v
      | none => if p.1 = k then some (jsonRoundTrip p.2) else none) = _
    rw [ih, getVal_cons]
    cases hv : getVal fs k with
    | some v => rfl
    | none =>
      by_cases hk : p.1 = k
      · simp [hk]
      · simp [hk]

/-- Property reads commute with the JSON round-trip. -/
theorem jGet_jsonRoundTrip (v : JVal) (k : List Char) :
    jGet (jsonRoundTrip v) k = (jGet v k).map jsonRoundTrip := by
  cases v with
  | jnull => rfl
  | jbool b => rfl
  | jnum n => cases n <;> rfl
  | jstr s => rfl
  | jarr xs => rfl
  | jobj fs => exact getVal_jsonRoundTripFields fs k

/-- The name fallback of the stored-title extraction is blind to the
round-trip. -/
theorem nameTitle_roundTrip (s : JVal) :
    (match (jGet s (strL "name")).map jsonRoundTrip with
     | some (.jstr t) => t
     | _ => ([] : List Char)) =
    (match jGet s (strL "name") with
     | some (.jstr t) => t
     | _ => []) := by
  cases hN : jGet s (strL "name") with
  | none => rfl
  | some w =>
    cases w with
    | jstr t => rfl
    | jnull => rfl
    | jbool b => rfl
    | jnum n => cases n <;> rfl
    | jarr l => rfl
    | jobj l => rfl

/-- Stored titles survive the JSON round-trip of an entry. -/
theorem entryTitle_roundTrip (s : JVal) :
    entryTitle (jsonRoundTrip s) = entryTitle s := by
  unfold entryTitle
  rw [jGet_jsonRoundTrip, jGet_jsonRoundTrip]
  cases hT : jGet s (strL "title") with
  | none => exact nameTitle_roundTrip s
  | some w =>
    cases w with
    | jstr t => rfl
    | jnull => exact nameTitle_roundTrip s
    | jbool b => exact nameTitle_roundTrip s
    | jnum n => cases n <;> exact nameTitle_roundTrip s
    | jarr l => exact nameTitle_roundTrip s
    | jobj l => exact nameTitle_roundTrip s

/-- Mapping two pointwise-equal functions gives the same list. -/
theorem map_eq_map_of {α β : Type} (f g : α → β) :
    ∀ l : List α, (∀ x ∈ l, f x = g x) → l.map f = l.map g := by
  intro l
  induction l with
  | nil => intro _; rfl
  | cons x xs ih =>
    intro h
    rw [List.map_cons, List.map_cons, h x (List.mem_cons_self x xs),
      ih (fun y hy => h y (List.mem_cons_of_mem x hy))]

/-- A retitled entry under an in-range heading stores exactly that
heading as its title. -/
theorem entryTitle_force (titles : List (List Char)) (i : Nat) (s : JVal)
    (t0 : List Char) (hg : titles[i]? = some t0) :
    entryTitle (forceHeading titles i s) = t0 := by
  have h1 := (jGet_forceHeading titles i s).1
  have hh : headingOf titles i s = .jstr t0 := by
    unfold headingOf
    rw [hg]
  unfold entryTitle
  rw [h1, hh]

/-- Extracted titles of a heading-forced scenario array are the headings. -/
theorem map_entryTitle_mapWithIndex (titles : List (List Char)) :
    ∀ (n : Nat) (l : List JVal), n + l.length = titles.length →
      (mapWithIndex (forceHeading titles) n l).map entryTitle =
        titles.drop n := by
  intro n l
  induction l generalizing n with
  | nil =>
    intro hn
    have hnl : n = titles.length := by simpa using hn
    rw [hnl, List.drop_length]
    rfl
  | cons x xs ih =>
    intro hn
    have hlt : n < titles.length := by
      simp only [List.length_cons] at hn
      omega
    have hg : titles[n]? = some titles[n] := List.getElem?_eq_getElem hlt
    show entryTitle (forceHeading titles n x) ::
        (mapWithIndex (forceHeading titles) (n + 1) xs).map entryTitle =
      titles.drop n
    rw [entryTitle_force titles n x _ hg,
      ih (n + 1) (by simp only [List.length_cons] at hn; omega),
      List.drop_eq_getElem_cons hlt]

/-- Pairs of a list zipped with itself are diagonal. -/
theorem zip_self_mem_eq :
    ∀ (xs : List (List Char)) (p : List Char × List Char),
      p ∈ xs.zip xs → p.1 = p.2 := by
  intro xs
  induction xs with
  | nil => intro p hp; simp at hp
  | cons x l ih =>
    intro p hp
    rw [List.zip_cons_cons] at hp
    rcases List.mem_cons.1 hp with he | hm
    · rw [he]
    · exact ih p hm

/-- A list never element-wise differs from itself. -/
theorem zip_self_any_false :
    ∀ xs : List (List Char),
      ((xs.zip xs).any fun p => decide (p.1 ≠ p.2)) = false := by
  intro xs
  rw [List.any_eq_false]
  intro p hp
  simp [zip_self_mem_eq xs p hp]

/-- With no flags set and agreeing title lists, no reanalysis is needed. -/
theorem needsReanalysis_no_flags (ft : Option (List Char))
    (aj : Option (Option JVal))
    (heq : parseScenarioTitles ft = analysisTitlesFromJson aj) :
    needsReanalysis ft aj false false = false := by
  unfold needsReanalysis
  rw [heq]
  simp
  exact fun a b hab => zip_self_mem_eq _ (a, b) hab

/-! ## C9: a freshly normalized analysis is judged current -/

/-- C9: when the hint is absent or at most the heading count, serializing the
normalized analysis and asking `needsReanalysis` (no flags set) judges it
current. -/
theorem normalize_roundtrip_current (a : JVal) (t : List Char) (h : Option Int)
    (hh : (h.getD 0).toNat ≤ (parseScenarioTitles (some t)).length) :
    needsReanalysis (some t)
      (some (some (jsonRoundTrip (normalizeAnalysisToText a t h))))
      false false = false := by
  have hd : desiredLenOf (parseScenarioTitles (some t)) h =
      (parseScenarioTitles (some t)).length := Nat.max_eq_left hh
  have hAT : analysisTitlesFromJson
      (some (some (jsonRoundTrip (normalizeAnalysisToText a t h)))) =
      parseScenarioTitles (some t) := by
    have h1 : analysisTitlesFromJson
        (some (some (jsonRoundTrip (normalizeAnalysisToText a t h)))) =
        match jGet (jsonRoundTrip (normalizeAnalysisToText a t h))
            (strL "scenarios") with
        | some (.jarr xs) => xs.map entryTitle
        | _ => [] := rfl
    have h2 : jGet (normalizeAnalysisToText a t h) (strL "scenarios") =
        some (.jarr (mapWithIndex (forceHeading (parseScenarioTitles (some t)))
          0 (padTruncate (parseScenarioTitles (some t))
            (desiredLenOf (parseScenarioTitles (some t)) h)
            (scenariosOf a)))) := by
      rw [show normalizeAnalysisToText a t h =
        JVal.jobj (setKey (jSpreadFields a) (strL "scenarios")
          (.jarr (mapWithIndex (forceHeading (parseScenarioTitles (some t))) 0
            (padTruncate (parseScenarioTitles (some t))
              (desiredLenOf (parseScenarioTitles (some t)) h)
              (scenariosOf a))))) from rfl]
      rw [jGet_jobj, getVal_setKey_self]
    rw [h1, jGet_jsonRoundTrip, h2]
    show (jsonRoundTripList (mapWithIndex
        (forceHeading (parseScenarioTitles (some t))) 0
        (padTruncate (parseScenarioTitles (some t))
          (desiredLenOf (parseScenarioTitles (some t)) h)
          (scenariosOf a)))).map entryTitle = _
    rw [jsonRoundTripList_eq_map, List.map_map,
      map_eq_map_of (entryTitle ∘ jsonRoundTrip) entryTitle _
        (fun x _ => entryTitle_roundTrip x),
      map_entryTitle_mapWithIndex (parseScenarioTitles (some t)) 0 _
        (by rw [length_padTruncate, hd]; simp),
      List.drop_zero]
  exact needsReanalysis_no_flags (some t) _ hAT.symm

/-- Witness for C9: the absent hint satisfies the precondition on the
four-heading example text, and the round-tripped normalized analysis is
judged current. -/
theorem normalize_roundtrip_current_witness :
    ((Option.getD (none : Option Int) 0).toNat ≤
        (parseScenarioTitles (some padText)).length)
    ∧ needsReanalysis (some padText)
        (some (some (jsonRoundTrip (normalizeAnalysisToText padRaw padText none))))
        false false = false :=
  ⟨by decide,
    normalize_roundtrip_current padRaw padText none (by decide)⟩

end FeatureGenAI
